import Mathlib

/-!
# Verification of the ColorFormat terminal text-styling library

Shallow embedding of `ColorFormat.cpp` / `ColorFormat.hpp`: ANSI token
tables, the escape stripper `removePreviousFormats`, the core
`formatString`, the thousands-separator integer formatter, the red→green
gradient formatter and the rainbow colorizer, together with theorems
settling the specification claims.

Strings are modelled by Lean `String` / `List Char`; C++ `unsigned int`
values by `Nat` (with explicit `mod 2^32` wrap-around where the code
subtracts); C++ `double` arithmetic by exact rational arithmetic over `ℚ`;
`throw std::invalid_argument(msg)` by `Except.error msg`; the `std::rand()`
stream consumed by `rainbow` by an explicit sequence of draws.
-/

set_option maxHeartbeats 1000000

namespace ColorFormat

/-- The escape character `'\033'` used by every ANSI sequence. -/
def escChar : Char := '\x1b'

/-- The ANSI color table `ColorFormat::_colors`: 8 names, each paired with
its escape sequence.  Only one color can be applied at a time. -/
def _colors : List (String × String) :=
  [("red", "\x1b[31m"), ("green", "\x1b[32m"),
   ("yellow", "\x1b[33m"), ("blue", "\x1b[34m"),
   ("magenta", "\x1b[35m"), ("cyan", "\x1b[36m"),
   ("white", "\x1b[37m"), ("black", "\x1b[30m")]

/-- The ANSI style table `ColorFormat::_styles`: 5 names, each paired with
its escape sequence.  Multiple styles can be combined. -/
def _styles : List (String × String) :=
  [("bold", "\x1b[1m"),
   ("underline", "\x1b[4m"),
   ("italic", "\x1b[3m"),
   ("strikethrough", "\x1b[9m"),
   ("blink", "\x1b[5m")]

/-- Linear scan of a name/escape table, returning the index of the first
entry whose name equals the token — the `for (j …) if (parameters[i] ==
table[j][0])` loops of the source. -/
def lookupIdx (table : List (String × String)) (tok : String) : Option Nat :=
  match table with
  | [] => none
  | entry :: rest =>
    if entry.1 = tok then some 0 else (lookupIdx rest tok).map (· + 1)

/-- Escape sequence of the first color entry matching the token, if any. -/
def findColor (tok : String) : Option String :=
  (lookupIdx _colors tok).bind (fun j => (_colors.get? j).map (·.2))

/-- Index of the style entry matching the token, if any. -/
def styleIdx (tok : String) : Option Nat := lookupIdx _styles tok

/-! ## The escape stripper `removePreviousFormats` -/

/-- Index of the first occurrence of the two-character sequence
`"\x1b["` — the `string.find("\033[")` of the source. -/
def firstEscPos : List Char → Option Nat
  | a :: b :: rest =>
    if a = escChar ∧ b = '[' then some 0
    else (firstEscPos (b :: rest)).map (· + 1)
  | _ => none

/-- Index of the first occurrence of character `c` at position `start` or
later — the `string.find('m', start)` of the source. -/
def findCharFrom : List Char → Char → Nat → Option Nat
  | [], _, _ => none
  | a :: rest, c, 0 =>
    if a = c then some 0 else (findCharFrom rest c 0).map (· + 1)
  | _ :: rest, c, start + 1 => (findCharFrom rest c start).map (· + 1)

theorem findCharFrom_lt_length {l : List Char} {c : Char} {st i : Nat}
    (h : findCharFrom l c st = some i) : i < l.length := by
  induction l generalizing st i with
  | nil => simp [findCharFrom] at h
  | cons a rest ih =>
    cases st with
    | zero =>
      by_cases ha : a = c
      · simp [findCharFrom, ha] at h
        simp only [List.length_cons]; omega
      · simp [findCharFrom, ha] at h
        obtain ⟨j, hj, rfl⟩ := h
        have := ih hj; simp; omega
    | succ st =>
      simp [findCharFrom] at h
      obtain ⟨j, hj, rfl⟩ := h
      have := ih hj; simp; omega

theorem findCharFrom_ge {l : List Char} {c : Char} {st i : Nat}
    (h : findCharFrom l c st = some i) : st ≤ i := by
  induction l generalizing st i with
  | nil => simp [findCharFrom] at h
  | cons a rest ih =>
    cases st with
    | zero => omega
    | succ st =>
      simp [findCharFrom] at h
      obtain ⟨j, hj, rfl⟩ := h
      have := ih hj; omega

/-- One pass of the `while` loop of `removePreviousFormats`: locate the
first `"\x1b["`, locate the first `'m'` at or after it, erase the span
inclusively and restart from the beginning; stop when no start marker
remains, or when a located start has no terminating `'m'` (the
unterminated fragment is left in place). -/
def stripLoop (l : List Char) : List Char :=
  match h : firstEscPos l with
  | none => l
  | some st =>
    match h2 : findCharFrom l 'm' st with
    | none => l
    | some en => stripLoop (l.take st ++ l.drop (en + 1))
termination_by l.length
decreasing_by
  have h1 := findCharFrom_lt_length h2
  have h3 := findCharFrom_ge h2
  simp [List.length_take, List.length_drop]
  omega

/-- `ColorFormat::removePreviousFormats`, lifted to `String`. -/
def removePreviousFormats (s : String) : String := ⟨stripLoop s.data⟩

/-! ## The core formatter `formatString` -/

/-- Error message of the multiple-colors sub-case. -/
def multipleColorsMsg : String := "❌ Multiple colors detected. Only one is allowed."

/-- Error message of the duplicate-style sub-case: names the token. -/
def duplicateStyleMsg (tok : String) : String :=
  "❌ Duplicate style detected: " ++ tok ++ "."

/-- Error message of the unknown-token sub-case: names the token. -/
def unknownFormatMsg (tok : String) : String :=
  "❌ Unknown format detected: " ++ tok

/-- The mutable locals of `formatString`'s token loop: the selected color
escape (empty when none yet), the concatenated style escapes in order of
appearance, and the five `activeStyles` flags. -/
structure FmtState where
  color : String
  formats : String
  active : List Bool
deriving Repr, DecidableEq

/-- Initial state: no color, no styles, `activeStyles` all `false`. -/
def initState : FmtState := ⟨"", "", [false, false, false, false, false]⟩

/-- Process one of the six `parameters[i]` slots: empty slots are skipped;
otherwise the token is looked up first in the color table (a second color
throws), then in the style table (a repeat throws), and a token matching
neither table throws. -/
def procToken (st : FmtState) (tok : String) : Except String FmtState :=
  if tok = "" then .ok st
  else
    match findColor tok with
    | some esc =>
      if st.color ≠ "" then .error multipleColorsMsg
      else .ok { st with color := esc }
    | none =>
      match styleIdx tok with
      | some j =>
        if st.active.getD j false then .error (duplicateStyleMsg tok)
        else .ok { st with active := st.active.set j true,
                           formats := st.formats ++ ((_styles.get? j).map (·.2)).getD "" }
      | none => .error (unknownFormatMsg tok)

/-- The `for (i = 0 … 6)` token loop of `formatString`. -/
def formatTokens (st : FmtState) : List String → Except String FmtState
  | [] => .ok st
  | tok :: rest =>
    match procToken st tok with
    | .ok st2 => formatTokens st2 rest
    | .error e => .error e

/-- `ColorFormat::formatString`.  The six optional C++ parameters are the
elements of `params` (an absent parameter is the empty string).  An empty
payload short-circuits to `""`; otherwise the tokens are validated, the
payload is stripped when at least one token was accepted, and the result is
`color + formats + payload + "\x1b[0m"`. -/
def formatString (s : String) (params : List String) : Except String String :=
  if s = "" then .ok ""
  else
    match formatTokens initState params with
    | .error e => .error e
    | .ok st =>
      let s2 := if st.color ≠ "" ∨ st.formats ≠ "" then removePreviousFormats s else s
      .ok (st.color ++ st.formats ++ s2 ++ "\x1b[0m")

/-! ## The integer formatter `formatUnsignedInteger` -/

/-- `static_cast<char>('0' + number % 10)`. -/
def digitChar (number : Nat) : Char := Char.ofNat (48 + number % 10)

/-- The `do … while (number)` digit loop: `acc` is the text built so far
(front insertion), `cc` the running `commaCount`; a comma is prepended
whenever the digit count so far (`acc.length - cc`) is a positive multiple
of three. -/
def digitLoop (number : Nat) (acc : List Char) (cc : Nat) : List Char :=
  let acc1 := if acc ≠ [] ∧ (acc.length - cc) % 3 = 0 then ',' :: acc else acc
  let cc1 := if acc ≠ [] ∧ (acc.length - cc) % 3 = 0 then cc + 1 else cc
  let acc2 := digitChar number :: acc1
  if number / 10 = 0 then acc2 else digitLoop (number / 10) acc2 cc1
termination_by number
decreasing_by omega

/-- The digit text of `formatUnsignedInteger` (before escape wrapping). -/
def groupDigits (number : Nat) : String := ⟨digitLoop number [] 0⟩

/-- `ColorFormat::formatUnsignedInteger`: thousands-separated digits, then
delegation to `formatString`. -/
def formatUnsignedInteger (number : Nat) (params : List String) : Except String String :=
  formatString (groupDigits number) params

/-! ## The gradient formatter `formatGradientUnsignedInteger` -/

/-- Modulus of the C `unsigned int` arithmetic. -/
def UINT_MOD : Nat := 2 ^ 32

/-- C unsigned subtraction `a - b`: wrap-around modulo `2^32` (exact for
operands below `2^32`). -/
def usub (a b : Nat) : Nat := (UINT_MOD + a - b) % UINT_MOD

/-- Error message when a color token reaches the gradient formatter
(spelling as in the source). -/
def gradientColorMsg : String := "❌ No color is aurotized with the gradiation function."

/-! ### IEEE-754 binary64 rounding over `ℚ`

The gradient branch computes with C `double`s, whose rounding is
observable in the emitted cube index.  `fl` rounds a rational to the
nearest binary64 value (round to nearest, ties to even), modelled for the
normal range: no overflow or subnormal handling, which these computations
never reach — every non-zero intermediate has magnitude in
`(2^-60, 2^10)`, and exact zero is handled separately. -/

/-- Downward scan for the binary exponent: the largest `e` (starting at
the given one) with `2 ^ e ≤ q`, for positive `q`. -/
def qexpFrom (q : ℚ) (e : ℤ) (fuel : Nat) : ℤ :=
  if fuel = 0 then e
  else if q < 2 ^ e then qexpFrom q (e - 1) (fuel - 1)
  else e
termination_by fuel
decreasing_by omega

/-- Binary exponent of a positive rational in `[2^-69, 2^11)`: the `e`
with `2 ^ e ≤ q < 2 ^ (e + 1)`. -/
def qexp (q : ℚ) : ℤ := qexpFrom q 10 80

/-- Round to the nearest integer, ties to the even neighbour. -/
def rndHalfEven (x : ℚ) : ℤ :=
  if x - Int.floor x < 1 / 2 then Int.floor x
  else if x - Int.floor x > 1 / 2 then Int.floor x + 1
  else if Int.floor x % 2 = 0 then Int.floor x else Int.floor x + 1

/-- Round a rational to the nearest IEEE-754 binary64 value: scale the
magnitude so the 53-bit significand sits at the integer position, round to
nearest (ties to even), and scale back. -/
def fl (q : ℚ) : ℚ :=
  if q = 0 then 0
  else
    (if q < 0 then -1 else 1) *
      ((rndHalfEven ((if q < 0 then -q else q) * 2 ^ (52 - qexp (if q < 0 then -q else q))) : ℚ)
        * 2 ^ (qexp (if q < 0 then -q else q) - 52))

/-- The `ratio` local of the in-range branch, with the C `double`
arithmetic modelled by exact rationals rounded by `fl` after each
operation: directional progress and span (the `unsigned → double`
conversions are exact, the operands being below `2^32 < 2^53`), the
division guarded by `field != 0.0` (defaulting to `1.0`), the two clamps
(comparisons and constant assignments are exact), and the rounded
inversion `1.0 - ratio` for reversed bounds. -/
def gradientRatioQ (number minimum maximum : Nat) : ℚ :=
  let progress : ℚ :=
    if maximum < minimum then (usub number maximum : ℚ) else (usub number minimum : ℚ)
  let field : ℚ :=
    if maximum < minimum then (usub minimum maximum : ℚ) else (usub maximum minimum : ℚ)
  let r0 : ℚ := if field ≠ 0 then fl (progress / field) else 1
  let r1 : ℚ := if r0 < 0 then 0 else r0
  let r2 : ℚ := if r1 > 1 then 1 else r1
  if maximum < minimum then fl (1 - r2) else r2

/-- The 256-color cube index emitted by the in-range branch:
`16 + (red/51)*36 + (green/51)*6 + blue/51`, with each `double` operation
of the channel expressions rounded by `fl`, following the source's
grouping `255 * (1.0 - (ratio - 0.5) * 2)` and `(255 * ratio) * 2`.  The C
`(int)` casts truncate toward zero; both cast operands are nonnegative
here (the ratio is clamped into `[0,1]`), where truncation coincides with
`Int.floor`, and the `/ 51` divisions on nonnegative ints coincide with
`Nat` division. -/
def gradientIndex (number minimum maximum : Nat) : Nat :=
  let r := gradientRatioQ number minimum maximum
  let red : Nat := if r < 1/2 then 255
    else (Int.floor (fl ((255 : ℚ) * fl (1 - fl (fl (r - 1/2) * 2))))).toNat
  let green : Nat := if r < 1/2 then (Int.floor (fl (fl ((255 : ℚ) * r) * 2))).toNat else 255
  let blue : Nat := 0
  16 + (red / 51) * 36 + (green / 51) * 6 + blue / 51

/-- `ColorFormat::formatGradientUnsignedInteger`: reject color tokens, then
the two out-of-range checks (fixed red/green + blink + bold rendering),
then the interpolated cube-color escape wrapped around the
`formatUnsignedInteger` result.  The five optional C++ parameters are the
elements of `params`; the delegated call adds the defaulted sixth slot. -/
def formatGradientUnsignedInteger (number minimum maximum : Nat)
    (params : List String) : Except String String :=
  if params.any (fun p => !(p == "") && (findColor p).isSome) then
    .error gradientColorMsg
  else if (number < minimum ∧ minimum < maximum) ∨
          (number > minimum ∧ minimum > maximum) ∨
          (number ≠ maximum ∧ minimum = maximum) then
    formatUnsignedInteger number ["red", "blink", "bold", "", "", ""]
  else if (number > maximum ∧ maximum > minimum) ∨
          (number < maximum ∧ maximum < minimum) then
    formatUnsignedInteger number ["green", "blink", "bold", "", "", ""]
  else
    match formatUnsignedInteger number (params ++ [""]) with
    | .error e => .error e
    | .ok inner =>
      .ok ("\x1b[38;5;" ++ Nat.repr (gradientIndex number minimum maximum) ++ "m"
            ++ inner ++ "\x1b[0m")

/-! ## The rainbow formatter `rainbow` -/

def tooManyTextsMsg : String := "❌ Too many text arguments for rainbow()."

/-- The argument scan of `rainbow`: the loop breaks at the first empty
slot; a style token appends its escape to the accumulated `format` prefix
(no duplicate check); any other token becomes the text, a second one
throws. Returns `(text, format prefix)`. -/
def rainbowScan : List String → String → String → Except String (String × String)
  | [], s, f => .ok (s, f)
  | a :: rest, s, f =>
    if a = "" then .ok (s, f)
    else
      match styleIdx a with
      | some j => rainbowScan rest s (f ++ ((_styles.get? j).map (·.2)).getD "")
      | none => if s = "" then rainbowScan rest a f else .error tooManyTextsMsg

/-- The local 6-color palette `colors[6]` of `rainbow`. -/
def rainbowPalette : List String :=
  ["\x1b[31m", "\x1b[32m", "\x1b[33m", "\x1b[34m", "\x1b[35m", "\x1b[36m"]

/-- The shuffle loop filling `randomColors`: at step `i` it draws
`rand i % (6 - i % 6)`, emits `colors[randomIndex]`, and overwrites that
slot with `colors[5 - i]`.  The `std::rand()` stream is modelled by the
draw sequence `rand`. -/
def shuffleGo (rand : Nat → Nat) (i : Nat) (cols : List String) : List String :=
  if i < 6 then
    let r := rand i % (6 - i % 6)
    cols.getD r "" :: shuffleGo rand (i + 1) (cols.set r (cols.getD (5 - i) ""))
  else []
termination_by 6 - i
decreasing_by omega

/-- The filled `randomColors` slots `0 … 5`. -/
def shuffledColors (rand : Nat → Nat) : List String := shuffleGo rand 0 rainbowPalette

/-- The inner `while` of the rainbow character loop: copy characters until
an `'m'` or the end of the text; returns the copied run together with the
number of characters consumed. -/
def escRun (s : List Char) (i : Nat) : String × Nat :=
  if i < s.length then
    if s.getD i ' ' ≠ 'm' then
      let p := escRun s (i + 1)
      (String.singleton (s.getD i ' ') ++ p.1, p.2 + 1)
    else ("", 0)
  else ("", 0)
termination_by s.length - i
decreasing_by omega

/-- The per-character loop of `rainbow`: a run introduced by `"\x1b["` is
copied verbatim and closed with `'m'`; every other character is prefixed
with `randomColors[i % 6]`. -/
def rainbowLoop (rc : List String) (s : List Char) (i : Nat) : String :=
  if i < s.length then
    if s.getD i ' ' = escChar ∧ i + 1 < s.length ∧ s.getD (i + 1) ' ' = '[' then
      let p := escRun s i
      p.1 ++ "m" ++ rainbowLoop rc s (i + p.2 + 1)
    else
      rc.getD (i % 6) "" ++ String.singleton (s.getD i ' ') ++ rainbowLoop rc s (i + 1)
  else ""
termination_by s.length - i
decreasing_by all_goals omega

/-- `ColorFormat::rainbow`: scan the five argument slots, fall back to the
rainbow emoji when no text was given, otherwise strip the text and colorize
it character by character with the shuffled palette, wrapped by the style
prefix and the reset escape. -/
def rainbow (args : List String) (rand : Nat → Nat) : Except String String :=
  match rainbowScan args "" "" with
  | .error e => .error e
  | .ok (s, format) =>
    if s = "" then .ok "🌈"
    else
      .ok (format ++ rainbowLoop (shuffledColors rand) (stripLoop s.data) 0 ++ "\x1b[0m")

/-! ## Spec-side definitions (written from the specification's words, for
the refinement-style claims) -/

/-- A string contains no ANSI escape-sequence starter `"\x1b["`. -/
def NoEscStart (s : String) : Prop := firstEscPos s.data = none

/-- `needle` occurs as a contiguous substring of `hay` (used to express
that an error message identifies the offending token). -/
def occursIn (needle hay : String) : Prop := needle.data <:+: hay.data

/-- Base-10 digits of `n`, least significant first, as characters — the
canonical positional rendering (`Nat.digits`), with the single digit `0`
for zero. -/
def specDigitsLSB (n : Nat) : List Char :=
  if n = 0 then ['0'] else (Nat.digits 10 n).map (fun d => Char.ofNat (48 + d))

/-- Insert a comma before every third digit counting from the
least-significant digit (position `k = 0`), on a least-significant-first
digit list. -/
def commaInterleave (k : Nat) : List Char → List Char
  | [] => []
  | d :: ds => (if k ≠ 0 ∧ k % 3 = 0 then [','] else []) ++ d :: commaInterleave (k + 1) ds

/-- Spec rendering of C8: base-10 digit text with a comma separator every
three digits counting from the least-significant digit. -/
def specGroupedText (n : Nat) : String := ⟨(commaInterleave 0 (specDigitsLSB n)).reverse⟩

/-- The ratio of C4's formula read at face value, in exact real
arithmetic: `(value − effective lower endpoint) / (effective span)`,
defaulting to the high end on a zero span, clamped to `[0, 1]` and
inverted when the bounds are reversed. -/
def specRatioExact (value lo hi : Nat) : ℚ :=
  let lowB : ℚ := min (lo : ℚ) (hi : ℚ)
  let span : ℚ := max (lo : ℚ) (hi : ℚ) - lowB
  let raw : ℚ := if span = 0 then 1 else ((value : ℚ) - lowB) / span
  let cl : ℚ := max 0 (min 1 raw)
  if hi < lo then 1 - cl else cl

/-- The cube index of C4's formula read at face value, in exact real
arithmetic: for ratio in `[0, 1/2]` red stays 255 and green interpolates
0 → 255; above `1/2` green stays 255 and red interpolates 255 → 0; blue is
always 0; `(r, g, b)` maps to cube index `16 + 36*(r/51) + 6*(g/51) +
(b/51)` with truncating division.  The program computes in `double`
precision, so this exact reading can differ from the emitted index (see
the C4 counterexample). -/
def specIndexExact (value lo hi : Nat) : Nat :=
  let r := specRatioExact value lo hi
  let red : Nat := if r ≤ 1/2 then 255 else (Int.floor ((255 : ℚ) * (2 - 2 * r))).toNat
  let green : Nat := if r ≤ 1/2 then (Int.floor ((255 : ℚ) * (2 * r))).toNat else 255
  let blue : Nat := 0
  16 + 36 * (red / 51) + 6 * (green / 51) + blue / 51

/-- Spec ratio of the amended C4: the same formula — effective lower
endpoint and span chosen by `min`/`max`, clamp to `[0, 1]` by
`max 0 (min 1 ·)`, inversion when the bounds are reversed — evaluated in
IEEE-754 double precision, with `fl` rounding the division and the
inversion (the integer operands and the clamp bounds are exact doubles). -/
def specRatioDouble (value lo hi : Nat) : ℚ :=
  let lowB : ℚ := min (lo : ℚ) (hi : ℚ)
  let span : ℚ := max (lo : ℚ) (hi : ℚ) - lowB
  let raw : ℚ := if span = 0 then 1 else fl (((value : ℚ) - lowB) / span)
  let cl : ℚ := max 0 (min 1 raw)
  if hi < lo then fl (1 - cl) else cl

/-- Spec cube index of the amended C4: two-segment interpolation (red 255
with green 0 → 255 up to one half, green 255 with red 255 → 0 above) and
the truncating cube mapping `16 + 36*(r/51) + 6*(g/51) + (b/51)`, with
every `double` operation of the interpolation rounded by `fl`.  The claim
fixes the interpolation endpoints but not the floating-point expression
tree, so the channel expressions are taken as the program writes them. -/
def specIndexDouble (value lo hi : Nat) : Nat :=
  let r := specRatioDouble value lo hi
  let red : Nat := if r ≤ 1/2 then 255
    else (Int.floor (fl ((255 : ℚ) * fl (1 - fl (fl (r - 1/2) * 2))))).toNat
  let green : Nat := if r ≤ 1/2 then (Int.floor (fl (fl ((255 : ℚ) * r) * 2))).toNat else 255
  let blue : Nat := 0
  16 + 36 * (red / 51) + 6 * (green / 51) + blue / 51

/-- Spec colorizer of C5: the character at position `i` is prefixed with
the shuffled color at slot `i % 6`. -/
def specColorize (rc : List String) : List Char → Nat → String
  | [], _ => ""
  | c :: rest, i => rc.getD (i % 6) "" ++ String.singleton c ++ specColorize rc rest (i + 1)

instance {α β : Type} [DecidableEq α] [DecidableEq β] : DecidableEq (Except α β) := fun
  | .ok a, .ok b => decidable_of_iff (a = b) (by simp)
  | .ok _, .error _ => .isFalse (by simp)
  | .error _, .ok _ => .isFalse (by simp)
  | .error a, .error b => decidable_of_iff (a = b) (by simp)

/-! ## C9 — empty payload short-circuits -/

/-- C9: for every token list — including invalid, duplicate, or
conflicting tokens — `formatString` applied to an empty payload returns the
empty string and raises no error (token validation is never reached). -/
theorem formatString_empty_payload (t1 t2 t3 t4 t5 t6 : String) :
    formatString "" [t1, t2, t3, t4, t5, t6] = .ok "" := by
  simp [formatString]

/-! ## C1 — no tokens supplied -/

/-- C1 as stated is false: even with all six token slots empty,
`formatString` appends the reset suffix, so `format("hello")` is
`"hello\x1b[0m"`, not `"hello"`. -/
theorem formatString_no_tokens_counterexample :
    formatString "hello" ["", "", "", "", "", ""] ≠ .ok "hello" := by decide

/-- C1 amended: for every non-empty payload with all six token slots
empty, the payload's pre-existing escapes are left untouched (no stripping
happens), but the reset suffix `"\x1b[0m"` is still appended: the result is
exactly the payload followed by the reset escape. -/
theorem formatString_no_tokens (s : String) (h : s ≠ "") :
    formatString s ["", "", "", "", "", ""] = .ok (s ++ "\x1b[0m") := by
  simp [formatString, formatTokens, procToken, initState, h]

/-- Witness for `formatString_no_tokens` at the payload `"hello"`. -/
theorem formatString_no_tokens_witness :
    "hello" ≠ "" ∧
      formatString "hello" ["", "", "", "", "", ""] = .ok ("hello" ++ "\x1b[0m") :=
  ⟨by decide, formatString_no_tokens "hello" (by decide)⟩

/-! ## Helper lemmas: digit text, stripping clean text, evaluating
`formatString` -/

theorem digitChar_ne_esc (m : Nat) : digitChar m ≠ escChar := by
  unfold digitChar
  have h : m % 10 < 10 := Nat.mod_lt _ (by omega)
  set k := m % 10 with hk
  interval_cases k <;> decide

theorem digitLoop_ne_nil (n : Nat) (acc : List Char) (cc : Nat) :
    digitLoop n acc cc ≠ [] := by
  induction n using Nat.strong_induction_on generalizing acc cc with
  | _ n ih =>
    rw [digitLoop]
    split
    · simp
    · exact ih (n / 10) (by omega) _ _

theorem esc_not_mem_digitLoop (n : Nat) (acc : List Char) (cc : Nat)
    (h : escChar ∉ acc) : escChar ∉ digitLoop n acc cc := by
  induction n using Nat.strong_induction_on generalizing acc cc with
  | _ n ih =>
    rw [digitLoop]
    have hmem : escChar ∉ (if acc ≠ [] ∧ (acc.length - cc) % 3 = 0 then ',' :: acc else acc) := by
      split
      · simp [h]; decide
      · exact h
    split
    · simp only [List.mem_cons, not_or]
      exact ⟨fun he => digitChar_ne_esc n he.symm, hmem⟩
    · apply ih (n / 10) (by omega)
      simp only [List.mem_cons, not_or]
      exact ⟨fun he => digitChar_ne_esc n he.symm, hmem⟩

theorem groupDigits_ne_empty (n : Nat) : groupDigits n ≠ "" := by
  unfold groupDigits
  intro h
  have h2 := congrArg String.data h
  simp only [String.data] at h2
  exact digitLoop_ne_nil n [] 0 h2

theorem firstEscPos_none_of_no_esc {l : List Char} (h : escChar ∉ l) :
    firstEscPos l = none := by
  induction l with
  | nil => rfl
  | cons a rest ih =>
    cases rest with
    | nil => rfl
    | cons b rest2 =>
      have ha : ¬(a = escChar ∧ b = '[') := by
        intro hab
        exact h (by simp [hab.1])
      rw [firstEscPos, if_neg ha]
      have : escChar ∉ b :: rest2 := fun hm => h (List.mem_cons_of_mem _ hm)
      rw [ih this]
      rfl

theorem stripLoop_of_none {l : List Char} (h : firstEscPos l = none) :
    stripLoop l = l := by
  rw [stripLoop]
  split
  · rfl
  · simp_all

theorem removePreviousFormats_of_no_esc {s : String} (h : escChar ∉ s.data) :
    removePreviousFormats s = s := by
  unfold removePreviousFormats
  rw [stripLoop_of_none (firstEscPos_none_of_no_esc h)]

theorem removePreviousFormats_groupDigits (n : Nat) :
    removePreviousFormats (groupDigits n) = groupDigits n :=
  removePreviousFormats_of_no_esc (esc_not_mem_digitLoop n [] 0 (by simp))

/-- Evaluation of `formatString` on a non-empty payload, given the outcome
of the token loop. -/
theorem formatString_ok (s : String) (hs : s ≠ "") (params : List String) (st : FmtState)
    (hp : formatTokens initState params = .ok st) :
    formatString s params =
      .ok (st.color ++ st.formats ++
        (if st.color ≠ "" ∨ st.formats ≠ "" then removePreviousFormats s else s) ++
        "\x1b[0m") := by
  simp [formatString, hs, hp]

/-- The fixed "too low" rendering: red, blink, bold around the digit text. -/
theorem formatUnsignedInteger_redBlinkBold (n : Nat) :
    formatUnsignedInteger n ["red", "blink", "bold", "", "", ""] =
      .ok ("\x1b[31m" ++ "\x1b[5m\x1b[1m" ++ groupDigits n ++ "\x1b[0m") := by
  unfold formatUnsignedInteger
  rw [formatString_ok (groupDigits n) (groupDigits_ne_empty n) _
      ⟨"\x1b[31m", "\x1b[5m\x1b[1m", [true, false, false, false, true]⟩ (by decide)]
  simp [removePreviousFormats_groupDigits n]

/-- The fixed "too high" rendering: green, blink, bold around the digit
text. -/
theorem formatUnsignedInteger_greenBlinkBold (n : Nat) :
    formatUnsignedInteger n ["green", "blink", "bold", "", "", ""] =
      .ok ("\x1b[32m" ++ "\x1b[5m\x1b[1m" ++ groupDigits n ++ "\x1b[0m") := by
  unfold formatUnsignedInteger
  rw [formatString_ok (groupDigits n) (groupDigits_ne_empty n) _
      ⟨"\x1b[32m", "\x1b[5m\x1b[1m", [true, false, false, false, true]⟩ (by decide)]
  simp [removePreviousFormats_groupDigits n]

/-! ## C7 — the gradient formatter rejects color tokens -/

/-- C7: any non-empty token matching the Color Table makes
`formatGradientUnsignedInteger` fail with the color-not-allowed error, and
the check runs before any range evaluation: the value and bounds are
arbitrary, so the error is raised even for out-of-range values. -/
theorem gradient_rejects_color_tokens (number minimum maximum : Nat)
    (params : List String) (p : String) (hp : p ∈ params)
    (hc : (findColor p).isSome = true) :
    formatGradientUnsignedInteger number minimum maximum params =
      .error gradientColorMsg := by
  have hpe : p ≠ "" := by
    intro h
    subst h
    exact absurd hc (by decide)
  have hany : params.any (fun q => !(q == "") && (findColor q).isSome) = true := by
    apply List.any_eq_true.2
    refine ⟨p, hp, ?_⟩
    simp [hc, hpe]
  unfold formatGradientUnsignedInteger
  simp [hany]

/-- Witness for `gradient_rejects_color_tokens`: the token `"red"` is
rejected even though the value 150 is out of the range `[0, 100]`. -/
theorem gradient_rejects_color_tokens_witness :
    "red" ∈ ["red"] ∧ (findColor "red").isSome = true ∧
      formatGradientUnsignedInteger 150 0 100 ["red"] = .error gradientColorMsg :=
  ⟨by decide, by decide,
    gradient_rejects_color_tokens 150 0 100 ["red"] "red" (by decide) (by decide)⟩

/-! ## C10 — out-of-range output is independent of the style arguments -/

/-- The color guard of the gradient formatter passes when no parameter
matches the color table. -/
theorem gradient_guard_false {params : List String}
    (hnc : ∀ p ∈ params, (findColor p).isSome = false) :
    params.any (fun q => !(q == "") && (findColor q).isSome) = false := by
  rw [List.any_eq_false]
  intro q hq
  simp [hnc q hq]

/-- C10: for every value outside the configured gradient range, the result
of `formatGradientUnsignedInteger` does not depend on its five style
arguments — for any non-color tokens (matching a style or not, no error is
raised) the output equals the output with all style slots empty. -/
theorem gradient_out_of_range_styles_irrelevant (number minimum maximum : Nat)
    (params : List String)
    (hnc : ∀ p ∈ params, (findColor p).isSome = false)
    (hor : ((number < minimum ∧ minimum < maximum) ∨
            (number > minimum ∧ minimum > maximum) ∨
            (number ≠ maximum ∧ minimum = maximum)) ∨
           ((number > maximum ∧ maximum > minimum) ∨
            (number < maximum ∧ maximum < minimum))) :
    formatGradientUnsignedInteger number minimum maximum params =
      formatGradientUnsignedInteger number minimum maximum [] ∧
    ∃ r, formatGradientUnsignedInteger number minimum maximum params = .ok r := by
  have hany := gradient_guard_false hnc
  rcases hor with hlow | hhigh
  · have hp : formatGradientUnsignedInteger number minimum maximum params =
        formatUnsignedInteger number ["red", "blink", "bold", "", "", ""] := by
      unfold formatGradientUnsignedInteger
      simp [hany, hlow]
    have he : formatGradientUnsignedInteger number minimum maximum [] =
        formatUnsignedInteger number ["red", "blink", "bold", "", "", ""] := by
      unfold formatGradientUnsignedInteger
      simp [hlow]
    rw [hp, he]
    exact ⟨rfl, _, formatUnsignedInteger_redBlinkBold number⟩
  · have hnlow : ¬((number < minimum ∧ minimum < maximum) ∨
        (number > minimum ∧ minimum > maximum) ∨
        (number ≠ maximum ∧ minimum = maximum)) := by omega
    have hp : formatGradientUnsignedInteger number minimum maximum params =
        formatUnsignedInteger number ["green", "blink", "bold", "", "", ""] := by
      unfold formatGradientUnsignedInteger
      simp [hany, hnlow, hhigh]
    have he : formatGradientUnsignedInteger number minimum maximum [] =
        formatUnsignedInteger number ["green", "blink", "bold", "", "", ""] := by
      unfold formatGradientUnsignedInteger
      simp [hnlow, hhigh]
    rw [hp, he]
    exact ⟨rfl, _, formatUnsignedInteger_greenBlinkBold number⟩

/-- Witness for `gradient_out_of_range_styles_irrelevant`: garbage style
arguments with the out-of-range value 150 in `[0, 100]`. -/
theorem gradient_out_of_range_styles_irrelevant_witness :
    (∀ p ∈ ["garbage", "??"], (findColor p).isSome = false) ∧
      (formatGradientUnsignedInteger 150 0 100 ["garbage", "??"] =
        formatGradientUnsignedInteger 150 0 100 [] ∧
       ∃ r, formatGradientUnsignedInteger 150 0 100 ["garbage", "??"] = .ok r) :=
  ⟨by decide,
    gradient_out_of_range_styles_irrelevant 150 0 100 ["garbage", "??"] (by decide)
      (by omega)⟩

/-! ## Evaluating `fl` at the concrete values the gradient proofs need -/

theorem qexpFrom_spec (q : ℚ) (e : ℤ) (h1 : 2 ^ e ≤ q) (h2 : q < 2 ^ (e + 1)) :
    ∀ (fuel : Nat) (etop : ℤ), e ≤ etop → (etop - e).toNat < fuel →
    qexpFrom q etop fuel = e := by
  intro fuel
  induction fuel using Nat.strong_induction_on with
  | _ fuel ih =>
    intro etop hle hfuel
    rw [qexpFrom, if_neg (by omega)]
    by_cases heq : etop = e
    · subst heq
      rw [if_neg (not_lt.2 h1)]
    · have hpow : (2 : ℚ) ^ (e + 1) ≤ 2 ^ etop := by
        apply zpow_le_zpow_right₀ (by norm_num)
        omega
      rw [if_pos (lt_of_lt_of_le h2 hpow)]
      exact ih (fuel - 1) (by omega) (etop - 1) (by omega) (by omega)

theorem qexp_spec {q : ℚ} (e : ℤ) (h1 : 2 ^ e ≤ q) (h2 : q < 2 ^ (e + 1))
    (h3 : -69 ≤ e) (h4 : e ≤ 10) : qexp q = e := by
  unfold qexp
  exact qexpFrom_spec q e h1 h2 80 10 h4 (by omega)

theorem rndHalfEven_low {x : ℚ} {f : ℤ} (h1 : (f : ℚ) ≤ x) (h2 : x < (f : ℚ) + 1)
    (h3 : x - (f : ℚ) < 1 / 2) : rndHalfEven x = f := by
  have hf : Int.floor x = f := by
    rw [Int.floor_eq_iff]
    exact ⟨h1, by exact_mod_cast h2⟩
  rw [rndHalfEven, hf, if_pos h3]

theorem rndHalfEven_high {x : ℚ} {f : ℤ} (h1 : (f : ℚ) ≤ x) (h2 : x < (f : ℚ) + 1)
    (h3 : 1 / 2 < x - (f : ℚ)) : rndHalfEven x = f + 1 := by
  have hf : Int.floor x = f := by
    rw [Int.floor_eq_iff]
    exact ⟨h1, by exact_mod_cast h2⟩
  rw [rndHalfEven, hf, if_neg (by linarith), if_pos h3]

theorem fl_eval_pos {q r : ℚ} {e m : ℤ} (h0 : 0 < q) (he : qexp q = e)
    (hm : rndHalfEven (q * 2 ^ (52 - e)) = m) (hr : (m : ℚ) * 2 ^ (e - 52) = r) :
    fl q = r := by
  rw [fl, if_neg (ne_of_gt h0)]
  simp only [if_neg (not_lt.2 (le_of_lt h0))]
  rw [he, hm, one_mul, hr]

theorem fl_zero : fl 0 = 0 := by
  rw [fl, if_pos rfl]

theorem fl_one : fl 1 = 1 := by
  have he : qexp 1 = 0 := qexp_spec 0 (by norm_num) (by norm_num) (by norm_num) (by norm_num)
  have hm : rndHalfEven ((1 : ℚ) * 2 ^ ((52 : ℤ) - 0)) = 4503599627370496 :=
    rndHalfEven_low (by norm_num) (by norm_num) (by norm_num)
  exact fl_eval_pos (by norm_num) he hm (by norm_num)

theorem fl_half : fl (1 / 2) = 1 / 2 := by
  have he : qexp (1 / 2) = -1 :=
    qexp_spec (-1) (by norm_num) (by norm_num) (by norm_num) (by norm_num)
  have hm : rndHalfEven ((1 / 2 : ℚ) * 2 ^ ((52 : ℤ) - (-1))) = 4503599627370496 :=
    rndHalfEven_low (by norm_num) (by norm_num) (by norm_num)
  exact fl_eval_pos (by norm_num) he hm (by norm_num)

theorem fl_255 : fl 255 = 255 := by
  have he : qexp 255 = 7 := qexp_spec 7 (by norm_num) (by norm_num) (by norm_num) (by norm_num)
  have hm : rndHalfEven ((255 : ℚ) * 2 ^ ((52 : ℤ) - 7)) = 8972014882652160 :=
    rndHalfEven_low (by norm_num) (by norm_num) (by norm_num)
  exact fl_eval_pos (by norm_num) he hm (by norm_num)

theorem fl_255half : fl (255 / 2) = 255 / 2 := by
  have he : qexp (255 / 2) = 6 :=
    qexp_spec 6 (by norm_num) (by norm_num) (by norm_num) (by norm_num)
  have hm : rndHalfEven ((255 / 2 : ℚ) * 2 ^ ((52 : ℤ) - 6)) = 8972014882652160 :=
    rndHalfEven_low (by norm_num) (by norm_num) (by norm_num)
  exact fl_eval_pos (by norm_num) he hm (by norm_num)

/-- `fl (8/10)`: the double nearest `0.8` lies slightly above it. -/
theorem fl_fourFifths : fl (4 / 5) = 3602879701896397 / 4503599627370496 := by
  have he : qexp (4 / 5) = -1 :=
    qexp_spec (-1) (by norm_num) (by norm_num) (by norm_num) (by norm_num)
  have hm : rndHalfEven ((4 / 5 : ℚ) * 2 ^ ((52 : ℤ) - (-1))) = 7205759403792794 := by
    have h := @rndHalfEven_high ((4 / 5 : ℚ) * 2 ^ ((52 : ℤ) - (-1))) 7205759403792793
      (by norm_num) (by norm_num) (by norm_num)
    rw [h]
    norm_num
  exact fl_eval_pos (by norm_num) he hm (by norm_num)

/-- `fl(0.8) - 0.5` is an exact double. -/
theorem fl_t1 : fl (1351079888211149 / 4503599627370496) =
    1351079888211149 / 4503599627370496 := by
  have he : qexp ((1351079888211149 : ℚ) / 4503599627370496) = -2 :=
    qexp_spec (-2) (by norm_num) (by norm_num) (by norm_num) (by norm_num)
  have hm : rndHalfEven (((1351079888211149 : ℚ) / 4503599627370496) * 2 ^ ((52 : ℤ) - (-2)))
      = 5404319552844596 :=
    rndHalfEven_low (by norm_num) (by norm_num) (by norm_num)
  exact fl_eval_pos (by norm_num) he hm (by norm_num)

/-- `(fl(0.8) - 0.5) * 2` is an exact double. -/
theorem fl_t2 : fl (1351079888211149 / 2251799813685248) =
    1351079888211149 / 2251799813685248 := by
  have he : qexp ((1351079888211149 : ℚ) / 2251799813685248) = -1 :=
    qexp_spec (-1) (by norm_num) (by norm_num) (by norm_num) (by norm_num)
  have hm : rndHalfEven (((1351079888211149 : ℚ) / 2251799813685248) * 2 ^ ((52 : ℤ) - (-1)))
      = 5404319552844596 :=
    rndHalfEven_low (by norm_num) (by norm_num) (by norm_num)
  exact fl_eval_pos (by norm_num) he hm (by norm_num)

/-- `1.0 - (fl(0.8) - 0.5) * 2` is an exact double. -/
theorem fl_t3 : fl (900719925474099 / 2251799813685248) =
    900719925474099 / 2251799813685248 := by
  have he : qexp ((900719925474099 : ℚ) / 2251799813685248) = -2 :=
    qexp_spec (-2) (by norm_num) (by norm_num) (by norm_num) (by norm_num)
  have hm : rndHalfEven (((900719925474099 : ℚ) / 2251799813685248) * 2 ^ ((52 : ℤ) - (-2)))
      = 7205759403792792 :=
    rndHalfEven_low (by norm_num) (by norm_num) (by norm_num)
  exact fl_eval_pos (by norm_num) he hm (by norm_num)

/-- `255 * (1.0 - (fl(0.8) - 0.5) * 2)` rounds DOWN to
`101.99999999999997…` (fraction `13/32 < 1/2`). -/
theorem fl_t4 : fl (229683580995895245 / 2251799813685248) =
    3588805953060863 / 35184372088832 := by
  have he : qexp ((229683580995895245 : ℚ) / 2251799813685248) = 6 :=
    qexp_spec 6 (by norm_num) (by norm_num) (by norm_num) (by norm_num)
  have hm : rndHalfEven (((229683580995895245 : ℚ) / 2251799813685248) * 2 ^ ((52 : ℤ) - 6))
      = 7177611906121726 :=
    rndHalfEven_low (by norm_num) (by norm_num) (by norm_num)
  exact fl_eval_pos (by norm_num) he hm (by norm_num)

/-! ## C6 — boundary behavior of the gradient formatter -/

/-- With equal bounds and the value equal to them, the span is zero and the
ratio defaults to 1. -/
theorem gradientRatioQ_zero_span (number minimum maximum : Nat)
    (hmm : minimum = maximum) (hn : number = maximum) :
    gradientRatioQ number minimum maximum = 1 := by
  rw [hmm, hn]
  have hz : usub maximum maximum = 0 := by
    simp [usub]
  simp [gradientRatioQ, hz]

/-- Full evaluation of the gradient formatter at equal bounds with the
value equal to them: cube index 46 (ratio 1). -/
theorem gradient_equal_bounds_eval (m : Nat) :
    formatGradientUnsignedInteger m m m [] =
      .ok ("\x1b[38;5;46m" ++ (groupDigits m ++ "\x1b[0m") ++ "\x1b[0m") := by
  have hnlow : ¬((m < m ∧ m < m) ∨ (m > m ∧ m > m) ∨ (m ≠ m ∧ m = m)) := by omega
  have hnhigh : ¬((m > m ∧ m > m) ∨ (m < m ∧ m < m)) := by omega
  have hidx : gradientIndex m m m = 46 := by
    have hr := gradientRatioQ_zero_span m m m rfl rfl
    simp only [gradientIndex, hr]
    rw [if_neg (by norm_num : ¬(1 : ℚ) < 1 / 2), if_neg (by norm_num : ¬(1 : ℚ) < 1 / 2)]
    rw [show (1 : ℚ) - 1 / 2 = 1 / 2 from by norm_num, fl_half]
    rw [show (1 / 2 : ℚ) * 2 = 1 from by norm_num, fl_one]
    rw [show (1 : ℚ) - 1 = 0 from by norm_num, fl_zero]
    rw [show (255 : ℚ) * 0 = 0 from by norm_num, fl_zero, Int.floor_zero]
    decide
  have hinner : formatUnsignedInteger m [""] =
      .ok (groupDigits m ++ "\x1b[0m") := by
    unfold formatUnsignedInteger
    rw [formatString_ok (groupDigits m) (groupDigits_ne_empty m) _ initState (by decide)]
    simp [initState]
  unfold formatGradientUnsignedInteger
  simp [hnlow, hnhigh, hinner, hidx]
  rw [show "\x1b[38;5;" ++ Nat.repr 46 ++ "m" = "\x1b[38;5;46m" from by decide]

/-- C6: every value below the direction-respecting minimum bound — or
differing from equal bounds — is rendered with the too-low styling (red,
blink, bold); every value above the direction-respecting maximum bound is
rendered with the too-high styling (green, blink, bold); and when the
bounds are equal and the value equals them, the ratio defaults to 1 (the
full high-end color, cube index 46) with no division error.  Style
parameters must not name a color (they would be rejected first, C7). -/
theorem gradient_boundary_behavior (number minimum maximum : Nat)
    (params : List String)
    (hnc : ∀ p ∈ params, (findColor p).isSome = false) :
    (((number < minimum ∧ minimum < maximum) ∨
      (number > minimum ∧ minimum > maximum) ∨
      (number ≠ maximum ∧ minimum = maximum)) →
      formatGradientUnsignedInteger number minimum maximum params =
        .ok ("\x1b[31m" ++ "\x1b[5m\x1b[1m" ++ groupDigits number ++ "\x1b[0m")) ∧
    (((number > maximum ∧ maximum > minimum) ∨
      (number < maximum ∧ maximum < minimum)) →
      formatGradientUnsignedInteger number minimum maximum params =
        .ok ("\x1b[32m" ++ "\x1b[5m\x1b[1m" ++ groupDigits number ++ "\x1b[0m")) ∧
    (minimum = maximum → number = maximum →
      gradientRatioQ number minimum maximum = 1 ∧
      formatGradientUnsignedInteger number minimum maximum [] =
        .ok ("\x1b[38;5;46m" ++ (groupDigits number ++ "\x1b[0m") ++ "\x1b[0m")) := by
  have hany := gradient_guard_false hnc
  refine ⟨?_, ?_, ?_⟩
  · intro hlow
    unfold formatGradientUnsignedInteger
    simp [hany, hlow]
    exact formatUnsignedInteger_redBlinkBold number
  · intro hhigh
    have hnlow : ¬((number < minimum ∧ minimum < maximum) ∨
        (number > minimum ∧ minimum > maximum) ∨
        (number ≠ maximum ∧ minimum = maximum)) := by omega
    unfold formatGradientUnsignedInteger
    simp [hany, hnlow, hhigh]
    exact formatUnsignedInteger_greenBlinkBold number
  · intro hmm hn
    refine ⟨gradientRatioQ_zero_span number minimum maximum hmm hn, ?_⟩
    rw [hmm, hn]
    exact gradient_equal_bounds_eval maximum

/-- Witness for `gradient_boundary_behavior`: value 5 below `[10, 20]`
(too-low), value 150 above `[0, 100]` (too-high), and equal bounds
`7 = 7 = 7` (zero span, ratio 1, cube index 46). -/
theorem gradient_boundary_behavior_witness :
    formatGradientUnsignedInteger 5 10 20 [] =
      .ok ("\x1b[31m" ++ "\x1b[5m\x1b[1m" ++ groupDigits 5 ++ "\x1b[0m") ∧
    formatGradientUnsignedInteger 150 0 100 [] =
      .ok ("\x1b[32m" ++ "\x1b[5m\x1b[1m" ++ groupDigits 150 ++ "\x1b[0m") ∧
    (gradientRatioQ 7 7 7 = 1 ∧
      formatGradientUnsignedInteger 7 7 7 [] =
        .ok ("\x1b[38;5;46m" ++ (groupDigits 7 ++ "\x1b[0m") ++ "\x1b[0m")) :=
  ⟨(gradient_boundary_behavior 5 10 20 [] (by decide)).1 (by omega),
   (gradient_boundary_behavior 150 0 100 [] (by decide)).2.1 (by omega),
   (gradient_boundary_behavior 7 7 7 [] (by decide)).2.2 rfl rfl⟩

/-! ## C8 — thousands-separated digit text -/

/-- The digit characters produced by the loop, least significant first,
before commas are interleaved. -/
def lsbDigits (n : Nat) : List Char :=
  if n / 10 = 0 then [digitChar n] else digitChar n :: lsbDigits (n / 10)
termination_by n
decreasing_by omega

/-- The digit loop equals comma interleaving over the LSB-first digit list.
`acc.length - cc` is the number of digits already emitted. -/
theorem digitLoop_eq (n : Nat) : ∀ acc cc, cc ≤ acc.length → (acc ≠ [] → cc < acc.length) →
    digitLoop n acc cc = (commaInterleave (acc.length - cc) (lsbDigits n)).reverse ++ acc := by
  induction n using Nat.strong_induction_on with
  | _ n ih =>
    intro acc cc h1 h2
    rw [digitLoop, lsbDigits]
    by_cases hc : acc ≠ [] ∧ (acc.length - cc) % 3 = 0
    · have hk : acc.length - cc ≠ 0 ∧ (acc.length - cc) % 3 = 0 :=
        ⟨by have := h2 hc.1; omega, hc.2⟩
      by_cases h10 : n / 10 = 0
      · rw [if_pos h10, if_pos h10, commaInterleave, commaInterleave]
        simp only [if_pos hc, if_pos hk]
        simp
      · rw [if_neg h10, if_neg h10, commaInterleave]
        simp only [if_pos hc, if_pos hk]
        rw [ih (n / 10) (by omega) (digitChar n :: ',' :: acc) (cc + 1)
          (by simp; omega) (by intro _; simp; omega)]
        have hlen : (digitChar n :: ',' :: acc).length - (cc + 1) =
            acc.length - cc + 1 := by simp; omega
        rw [hlen]
        simp
    · have hk : ¬(acc.length - cc ≠ 0 ∧ (acc.length - cc) % 3 = 0) := by
        intro hkk
        apply hc
        refine ⟨?_, hkk.2⟩
        intro he
        rw [he] at hkk
        simp at hkk
      by_cases h10 : n / 10 = 0
      · rw [if_pos h10, if_pos h10, commaInterleave, commaInterleave]
        simp only [if_neg hc, if_neg hk]
        simp
      · rw [if_neg h10, if_neg h10, commaInterleave]
        simp only [if_neg hc, if_neg hk]
        rw [ih (n / 10) (by omega) (digitChar n :: acc) cc
          (by simp; omega) (by intro _; simp; omega)]
        have hlen : (digitChar n :: acc).length - cc = acc.length - cc + 1 := by
          simp; omega
        rw [hlen]
        simp

/-- The loop's LSB-first digits are the canonical base-10 digits. -/
theorem lsbDigits_eq_spec (n : Nat) : lsbDigits n = specDigitsLSB n := by
  induction n using Nat.strong_induction_on with
  | _ n ih =>
    rw [lsbDigits]
    by_cases h0 : n = 0
    · subst h0
      rw [if_pos (by omega)]
      decide
    · have hd : Nat.digits 10 n = n % 10 :: Nat.digits 10 (n / 10) :=
        Nat.digits_def' (by omega) (by omega)
      by_cases h10 : n / 10 = 0
      · rw [if_pos h10]
        unfold specDigitsLSB
        rw [if_neg h0, hd, h10]
        simp [digitChar]
      · rw [if_neg h10, ih (n / 10) (by omega)]
        unfold specDigitsLSB
        rw [if_neg h0, if_neg h10, hd]
        simp [digitChar]

/-- No comma is interleaved into at most three digits. -/
theorem commaInterleave_short {l : List Char} (h : l.length ≤ 3) :
    commaInterleave 0 l = l := by
  match l with
  | [] => rfl
  | [a] => rfl
  | [a, b] => rfl
  | [a, b, c] => rfl
  | a :: b :: c :: d :: l2 => simp at h

/-- C8: for every `n`, `formatUnsignedInteger` forwards its digit text and
all tokens to `formatString`; the digit text is the base-10 rendering of
`n` with a comma separator every three digits counting from the
least-significant digit; no separator appears for values below 1000; and
`formatUnsignedInteger(1000000)` produces the digit text `"1,000,000"`. -/
theorem formatUnsignedInteger_digits :
    (∀ n params, formatUnsignedInteger n params = formatString (groupDigits n) params) ∧
    (∀ n, groupDigits n = specGroupedText n) ∧
    (∀ n, n < 1000 → groupDigits n = ⟨(specDigitsLSB n).reverse⟩) ∧
    groupDigits 1000000 = "1,000,000" := by
  have hmain : ∀ n, groupDigits n = specGroupedText n := by
    intro n
    unfold groupDigits specGroupedText
    have h := digitLoop_eq n [] 0 (by simp) (by simp)
    simp only [List.length_nil, Nat.sub_zero, List.append_nil] at h
    rw [h, lsbDigits_eq_spec]
  refine ⟨fun n params => rfl, hmain, ?_, by unfold groupDigits; simp [digitLoop]; decide⟩
  intro n hn
  rw [hmain n]
  unfold specGroupedText
  have hlen : (specDigitsLSB n).length ≤ 3 := by
    unfold specDigitsLSB
    by_cases h0 : n = 0
    · simp [h0]
    · rw [if_neg h0, List.length_map, Nat.digits_len 10 n (by omega) h0]
      have := @Nat.log_lt_of_lt_pow 10 3 n h0 (by omega)
      omega
  rw [commaInterleave_short hlen]

/-- Witness for the below-1000 conjunct of `formatUnsignedInteger_digits`
at `n = 999`. -/
theorem formatUnsignedInteger_digits_witness :
    999 < 1000 ∧ groupDigits 999 = ⟨(specDigitsLSB 999).reverse⟩ :=
  ⟨by omega, formatUnsignedInteger_digits.2.2.1 999 (by omega)⟩

/-! ## C4 — the in-range gradient color -/

/-- The sequential clamping of the source (`if < 0` then `if > 1`) equals
the spec's `max 0 (min 1 ·)`. -/
theorem clamp_eq (x : ℚ) :
    (if (if x < 0 then (0 : ℚ) else x) > 1 then 1 else if x < 0 then (0 : ℚ) else x) =
      max 0 (min 1 x) := by
  rw [max_def, min_def]
  split_ifs <;> linarith

/-- In range, the code's ratio (wrapping unsigned subtraction, sequential
clamps, `fl`-rounded division and inversion) equals the spec's
double-precision ratio. -/
theorem gradientRatioQ_eq_specRatio (number minimum maximum : Nat)
    (hb1 : number < UINT_MOD) (hb2 : minimum < UINT_MOD) (hb3 : maximum < UINT_MOD)
    (hnlow : ¬((number < minimum ∧ minimum < maximum) ∨
               (number > minimum ∧ minimum > maximum) ∨
               (number ≠ maximum ∧ minimum = maximum)))
    (hnhigh : ¬((number > maximum ∧ maximum > minimum) ∨
                (number < maximum ∧ maximum < minimum))) :
    gradientRatioQ number minimum maximum = specRatioDouble number minimum maximum := by
  rcases lt_trichotomy minimum maximum with hlt | heq | hgt
  · have h1 : minimum ≤ number := by omega
    have h2 : number ≤ maximum := by omega
    have hu1 : usub number minimum = number - minimum := by
      unfold usub UINT_MOD at *
      omega
    have hu2 : usub maximum minimum = maximum - minimum := by
      unfold usub UINT_MOD at *
      omega
    have hmlt : ¬ maximum < minimum := by omega
    have hcle : (minimum : ℚ) ≤ (maximum : ℚ) := by exact_mod_cast le_of_lt hlt
    unfold gradientRatioQ specRatioDouble
    simp only [if_neg hmlt, hu1, hu2]
    rw [min_eq_left hcle, max_eq_right hcle, Nat.cast_sub h1, Nat.cast_sub (le_of_lt hlt)]
    have hxne : (maximum : ℚ) - (minimum : ℚ) ≠ 0 := by
      have : (minimum : ℚ) < (maximum : ℚ) := by exact_mod_cast hlt
      intro hz
      linarith
    rw [if_pos hxne, if_neg hxne]
    exact clamp_eq _
  · have hnum : number = maximum := by omega
    rw [gradientRatioQ_zero_span number minimum maximum heq hnum]
    unfold specRatioDouble
    rw [heq, hnum]
    simp
  · have h1 : maximum ≤ number := by omega
    have h2 : number ≤ minimum := by omega
    have hu1 : usub number maximum = number - maximum := by
      unfold usub UINT_MOD at *
      omega
    have hu2 : usub minimum maximum = minimum - maximum := by
      unfold usub UINT_MOD at *
      omega
    have hmlt : maximum < minimum := hgt
    have hcle : (maximum : ℚ) ≤ (minimum : ℚ) := by exact_mod_cast le_of_lt hgt
    unfold gradientRatioQ specRatioDouble
    simp only [if_pos hmlt, hu1, hu2]
    rw [min_eq_right hcle, max_eq_left hcle, Nat.cast_sub h1, Nat.cast_sub (le_of_lt hgt)]
    have hxne : (minimum : ℚ) - (maximum : ℚ) ≠ 0 := by
      have : (maximum : ℚ) < (minimum : ℚ) := by exact_mod_cast hgt
      intro hz
      linarith
    rw [if_pos hxne, if_neg hxne]
    rw [clamp_eq]

/-- Equal ratios give equal cube indices: off the half-way boundary the
two definitions carry the identical `fl`-rounded channel expressions, and
at ratio exactly one half (an exact double) both segment choices evaluate
to the pure-yellow channels `(255, 255, 0)`. -/
theorem gradientIndex_eq_specIndex (number minimum maximum : Nat)
    (hr : gradientRatioQ number minimum maximum = specRatioDouble number minimum maximum) :
    gradientIndex number minimum maximum = specIndexDouble number minimum maximum := by
  unfold gradientIndex specIndexDouble
  rw [hr]
  set r := specRatioDouble number minimum maximum with hrdef
  rcases lt_trichotomy r (1 / 2) with h | h | h
  · simp only [if_pos h, if_pos (le_of_lt h)]
    ring
  · rw [h]
    simp only [if_neg (by norm_num : ¬(1 / 2 : ℚ) < 1 / 2),
               if_pos (by norm_num : (1 / 2 : ℚ) ≤ 1 / 2)]
    rw [show (1 / 2 : ℚ) - 1 / 2 = 0 from by norm_num, fl_zero]
    rw [show (0 : ℚ) * 2 = 0 from by norm_num, fl_zero]
    rw [show (1 : ℚ) - 0 = 1 from by norm_num, fl_one]
    rw [show (255 : ℚ) * 1 = 255 from by norm_num, fl_255]
    rw [show (255 : ℚ) * (1 / 2) = 255 / 2 from by norm_num, fl_255half]
    rw [show (255 / 2 : ℚ) * 2 = 255 from by norm_num, fl_255]
    norm_num
    rw [show ((255 : Int).toNat) = 255 from rfl]
  · simp only [if_neg (not_lt.2 (le_of_lt h)), if_neg (not_le.2 h)]
    ring

/-- At ratio exactly one half the channel chains evaluate to
`(255, 255, 0)`: cube index 226 (pure yellow). -/
theorem gradientIndex_at_half (number minimum maximum : Nat)
    (hr : gradientRatioQ number minimum maximum = 1 / 2) :
    gradientIndex number minimum maximum = 226 := by
  simp only [gradientIndex, hr]
  simp only [if_neg (by norm_num : ¬(1 / 2 : ℚ) < 1 / 2)]
  rw [show (1 / 2 : ℚ) - 1 / 2 = 0 from by norm_num, fl_zero]
  rw [show (0 : ℚ) * 2 = 0 from by norm_num, fl_zero]
  rw [show (1 : ℚ) - 0 = 1 from by norm_num, fl_one]
  rw [show (255 : ℚ) * 1 = 255 from by norm_num, fl_255]
  norm_num
  rw [show ((255 : Int).toNat) = 255 from rfl]

/-- The midpoint of the ascending range `[0, 100]` renders with cube index
226 (pure yellow). -/
theorem gradient_at_midpoint_asc :
    formatGradientUnsignedInteger 50 0 100 [] =
      .ok ("\x1b[38;5;226m" ++ ("50" ++ "\x1b[0m") ++ "\x1b[0m") := by
  have hg : groupDigits 50 = "50" := by
    unfold groupDigits
    simp [digitLoop]
    decide
  have hinner : formatUnsignedInteger 50 [""] = .ok ("50" ++ "\x1b[0m") := by
    unfold formatUnsignedInteger
    rw [hg, formatString_ok "50" (by decide) _ initState (by decide)]
    simp [initState]
  have hidx : gradientIndex 50 0 100 = 226 := by
    apply gradientIndex_at_half
    norm_num [gradientRatioQ, usub, UINT_MOD, fl_half]
  unfold formatGradientUnsignedInteger
  rw [if_neg (by decide), if_neg (by decide), if_neg (by decide)]
  simp only [List.nil_append]
  rw [hinner, hidx]
  rw [show "\x1b[38;5;" ++ Nat.repr 226 ++ "m" = "\x1b[38;5;226m" from by decide]

/-- The same midpoint with reversed bounds `[100, 0]` renders with the same
cube index 226. -/
theorem gradient_at_midpoint_desc :
    formatGradientUnsignedInteger 50 100 0 [] =
      .ok ("\x1b[38;5;226m" ++ ("50" ++ "\x1b[0m") ++ "\x1b[0m") := by
  have hg : groupDigits 50 = "50" := by
    unfold groupDigits
    simp [digitLoop]
    decide
  have hinner : formatUnsignedInteger 50 [""] = .ok ("50" ++ "\x1b[0m") := by
    unfold formatUnsignedInteger
    rw [hg, formatString_ok "50" (by decide) _ initState (by decide)]
    simp [initState]
  have hidx : gradientIndex 50 100 0 = 226 := by
    apply gradientIndex_at_half
    norm_num [gradientRatioQ, usub, UINT_MOD, fl_half]
  unfold formatGradientUnsignedInteger
  rw [if_neg (by decide), if_neg (by decide), if_neg (by decide)]
  simp only [List.nil_append]
  rw [hinner, hidx]
  rw [show "\x1b[38;5;" ++ Nat.repr 226 ++ "m" = "\x1b[38;5;226m" from by decide]

/-- C4 read in exact real arithmetic is false of the program: at value 8
in `[0, 10]` the formula's ratio is `0.8` and its red channel
`⌊255·(2 − 2·0.8)⌋ = 102`, cube index 118; the program divides in `double`
precision, `fl(8/10)` lies just above `4/5`, and
`255·(1.0 − (fl(0.8) − 0.5)·2) = 101.99999999999997…` truncates to red
101, so the program emits cube index 82. -/
theorem gradient_in_range_formula_counterexample :
    specIndexExact 8 0 10 = 118 ∧
    gradientIndex 8 0 10 = 82 ∧
    formatGradientUnsignedInteger 8 0 10 [] =
      .ok ("\x1b[38;5;82m" ++ ("8" ++ "\x1b[0m") ++ "\x1b[0m") := by
  have h118 : specIndexExact 8 0 10 = 118 := by
    have hrs : specRatioExact 8 0 10 = 4 / 5 := by
      norm_num [specRatioExact, min_def, max_def]
    simp only [specIndexExact, hrs]
    simp only [if_neg (by norm_num : ¬(4 / 5 : ℚ) ≤ 1 / 2)]
    rw [show (255 : ℚ) * (2 - 2 * (4 / 5)) = 102 from by norm_num]
    norm_num
    rw [show ((102 : Int).toNat) = 102 from rfl]
  have hR : gradientRatioQ 8 0 10 = 3602879701896397 / 4503599627370496 := by
    norm_num [gradientRatioQ, usub, UINT_MOD, fl_fourFifths]
  have h82 : gradientIndex 8 0 10 = 82 := by
    simp only [gradientIndex, hR]
    simp only [if_neg (by norm_num :
      ¬(3602879701896397 / 4503599627370496 : ℚ) < 1 / 2)]
    rw [show (3602879701896397 / 4503599627370496 : ℚ) - 1 / 2
          = 1351079888211149 / 4503599627370496 from by norm_num, fl_t1]
    rw [show (1351079888211149 / 4503599627370496 : ℚ) * 2
          = 1351079888211149 / 2251799813685248 from by norm_num, fl_t2]
    rw [show (1 : ℚ) - 1351079888211149 / 2251799813685248
          = 900719925474099 / 2251799813685248 from by norm_num, fl_t3]
    rw [show (255 : ℚ) * (900719925474099 / 2251799813685248)
          = 229683580995895245 / 2251799813685248 from by norm_num, fl_t4]
    rw [show ⌊(3588805953060863 / 35184372088832 : ℚ)⌋ = 101 from by
      rw [Int.floor_eq_iff] <;> norm_num]
    decide
  have hg : groupDigits 8 = "8" := by
    unfold groupDigits
    simp [digitLoop]
    decide
  have hinner : formatUnsignedInteger 8 [""] = .ok ("8" ++ "\x1b[0m") := by
    unfold formatUnsignedInteger
    rw [hg, formatString_ok "8" (by decide) _ initState (by decide)]
    simp [initState]
  refine ⟨h118, h82, ?_⟩
  unfold formatGradientUnsignedInteger
  rw [if_neg (by decide), if_neg (by decide), if_neg (by decide)]
  simp only [List.nil_append]
  rw [hinner, h82]
  rw [show "\x1b[38;5;" ++ Nat.repr 82 ++ "m" = "\x1b[38;5;82m" from by decide]

/-- C4 (amended): for every in-range value (bounds and value within the
unsigned range), the emitted color escape carries the spec's cube index
with the formula evaluated in IEEE-754 `double` precision as the program
computes it — ratio `(value − effective lower endpoint) / span` rounded by
`fl`, clamped and `fl`-inverted when reversed, two-segment
red→yellow→green interpolation with each operation rounded by `fl`,
truncating cube mapping — wrapped around the integer-formatter output; and
concretely both `formatGradient(50, 0, 100)` and the reversed
`formatGradient(50, 100, 0)` yield the pure-yellow cube index 226 (one
half is an exact double, so exact and double readings agree there). -/
theorem gradient_in_range_formula (number minimum maximum : Nat) (params : List String)
    (hb1 : number < UINT_MOD) (hb2 : minimum < UINT_MOD) (hb3 : maximum < UINT_MOD)
    (hnc : ∀ p ∈ params, (findColor p).isSome = false)
    (hnlow : ¬((number < minimum ∧ minimum < maximum) ∨
               (number > minimum ∧ minimum > maximum) ∨
               (number ≠ maximum ∧ minimum = maximum)))
    (hnhigh : ¬((number > maximum ∧ maximum > minimum) ∨
                (number < maximum ∧ maximum < minimum))) :
    gradientIndex number minimum maximum = specIndexDouble number minimum maximum ∧
    formatGradientUnsignedInteger number minimum maximum params =
      (formatUnsignedInteger number (params ++ [""])).map
        (fun inner => "\x1b[38;5;" ++ Nat.repr (specIndexDouble number minimum maximum) ++ "m"
          ++ inner ++ "\x1b[0m") ∧
    formatGradientUnsignedInteger 50 0 100 [] =
      .ok ("\x1b[38;5;226m" ++ ("50" ++ "\x1b[0m") ++ "\x1b[0m") ∧
    formatGradientUnsignedInteger 50 100 0 [] =
      .ok ("\x1b[38;5;226m" ++ ("50" ++ "\x1b[0m") ++ "\x1b[0m") := by
  have hidx : gradientIndex number minimum maximum = specIndexDouble number minimum maximum :=
    gradientIndex_eq_specIndex _ _ _
      (gradientRatioQ_eq_specRatio _ _ _ hb1 hb2 hb3 hnlow hnhigh)
  have hany := gradient_guard_false hnc
  refine ⟨hidx, ?_, ?_, ?_⟩
  · unfold formatGradientUnsignedInteger
    simp only [hany, Bool.false_eq_true, if_false]
    rw [if_neg hnlow, if_neg hnhigh, ← hidx]
    rcases hres : formatUnsignedInteger number (params ++ [""]) with e | inner <;>
      simp [hres, Except.map]
  · exact gradient_at_midpoint_asc
  · exact gradient_at_midpoint_desc

/-- Witness for `gradient_in_range_formula` at value 25 in `[0, 100]`. -/
theorem gradient_in_range_formula_witness :
    gradientIndex 25 0 100 = specIndexDouble 25 0 100 ∧
    formatGradientUnsignedInteger 25 0 100 [] =
      (formatUnsignedInteger 25 ([] ++ [""])).map
        (fun inner => "\x1b[38;5;" ++ Nat.repr (specIndexDouble 25 0 100) ++ "m"
          ++ inner ++ "\x1b[0m") ∧
    formatGradientUnsignedInteger 50 0 100 [] =
      .ok ("\x1b[38;5;226m" ++ ("50" ++ "\x1b[0m") ++ "\x1b[0m") ∧
    formatGradientUnsignedInteger 50 100 0 [] =
      .ok ("\x1b[38;5;226m" ++ ("50" ++ "\x1b[0m") ++ "\x1b[0m") :=
  gradient_in_range_formula 25 0 100 [] (by norm_num [UINT_MOD]) (by norm_num [UINT_MOD])
    (by norm_num [UINT_MOD]) (by simp) (by omega) (by omega)

/-! ## C3 — when `formatString` throws, and what the message carries -/

/-- Name of the style-table entry at index `j` (empty when out of range). -/
def styleNameAt (j : Nat) : String := (_styles.map (·.1)).getD j ""

/-- Number of tokens matching the color table. -/
def countColors (toks : List String) : Nat :=
  toks.countP (fun t => (findColor t).isSome)

/-- The claim's error condition: a second valid color token, a repeated
valid style token, or a non-empty token matching neither table. -/
def ErrCond (toks : List String) : Prop :=
  2 ≤ countColors toks ∨
  (∃ j < 5, 2 ≤ toks.count (styleNameAt j)) ∨
  (∃ t ∈ toks, t ≠ "" ∧ findColor t = none ∧ styleIdx t = none)

theorem lookupIdx_some {table : List (String × String)} {tok : String} {j : Nat}
    (h : lookupIdx table tok = some j) :
    ∃ p, table.get? j = some p ∧ p.1 = tok := by
  induction table generalizing j with
  | nil => simp [lookupIdx] at h
  | cons entry rest ih =>
    rw [lookupIdx] at h
    by_cases he : entry.1 = tok
    · rw [if_pos he] at h
      injection h with h
      subst h
      exact ⟨entry, rfl, he⟩
    · rw [if_neg he] at h
      obtain ⟨j0, hj0, hj⟩ := Option.map_eq_some'.1 h
      subst hj
      obtain ⟨p, hget, hp⟩ := ih hj0
      exact ⟨p, by simpa using hget, hp⟩

/-- A style hit pins down the index, the token, and that the color lookup
missed (the two tables share no name). -/
theorem styleIdx_facts {t : String} {j : Nat} (h : styleIdx t = some j) :
    j < 5 ∧ t = styleNameAt j ∧ findColor t = none ∧ t ≠ "" := by
  obtain ⟨p, hget, hpt⟩ := lookupIdx_some h
  have hj : j < 5 := by
    obtain ⟨hlt, _⟩ := List.get?_eq_some.1 hget
    simpa [_styles] using hlt
  have hname : t = styleNameAt j := by
    unfold styleNameAt
    rw [List.getD_eq_get?, List.get?_map, hget]
    exact hpt.symm
  have hp := List.get?_mem hget
  subst hpt
  fin_cases hp <;> exact ⟨hj, hname, by decide, by decide⟩

/-- A color hit rules out the style table, the empty token, and gives a
non-empty escape. -/
theorem findColor_facts {t : String} {e : String} (h : findColor t = some e) :
    styleIdx t = none ∧ t ≠ "" ∧ e ≠ "" := by
  unfold findColor at h
  obtain ⟨j, hj, hmap⟩ := Option.bind_eq_some.1 h
  obtain ⟨p, hget, hpe⟩ := Option.map_eq_some'.1 hmap
  obtain ⟨p2, hget2, hpt⟩ := lookupIdx_some hj
  rw [hget] at hget2
  injection hget2 with hpp
  subst hpp
  subst hpe
  have hp := List.get?_mem hget
  subst hpt
  fin_cases hp <;> exact ⟨by decide, by decide, by decide⟩

/-- A color-table token differs from every style-table name. -/
theorem findColor_ne_styleName {t : String} {e : String} (h : findColor t = some e)
    {j : Nat} (hj : j < 5) : t ≠ styleNameAt j := by
  intro heq
  have h2 := (@styleIdx_facts (styleNameAt j) j ?_).2.2.1
  · rw [heq] at h
    rw [h2] at h
    exact Option.noConfusion h
  · interval_cases j <;> decide

/-- Style names are pairwise distinct and non-empty. -/
theorem styleNameAt_inj : ∀ j < 5, ∀ j2 < 5, j ≠ j2 → styleNameAt j ≠ styleNameAt j2 := by
  decide

theorem styleNameAt_ne_empty : ∀ j < 5, styleNameAt j ≠ "" := by
  decide

/-- The style lookup at a style name returns that index. -/
theorem styleIdx_styleNameAt : ∀ j < 5, styleIdx (styleNameAt j) = some j := by
  decide

/-- Error threshold for a further color token under current state. -/
def colorThreshold (c : String) : Nat := if c = "" then 2 else 1

/-- Error threshold for a further occurrence of style `j`. -/
def styleThreshold (active : List Bool) (j : Nat) : Nat :=
  if active.getD j false then 1 else 2

/-- The error condition generalized over the token-loop state. -/
def errsFrom (c : String) (active : List Bool) (toks : List String) : Prop :=
  colorThreshold c ≤ countColors toks ∨
  (∃ j < 5, styleThreshold active j ≤ toks.count (styleNameAt j)) ∨
  (∃ t ∈ toks, t ≠ "" ∧ findColor t = none ∧ styleIdx t = none)

theorem countColors_cons (t : String) (ts : List String) :
    countColors (t :: ts) = countColors ts + if (findColor t).isSome = true then 1 else 0 := by
  unfold countColors
  rw [List.countP_cons]

theorem count_cons_str (n t : String) (ts : List String) :
    (t :: ts).count n = ts.count n + if t = n then 1 else 0 := by
  rw [List.count_cons]
  by_cases h : t = n <;> simp [h]

theorem colorThreshold_pos (c : String) : 1 ≤ colorThreshold c := by
  unfold colorThreshold
  split <;> omega

theorem styleThreshold_pos (a : List Bool) (j : Nat) : 1 ≤ styleThreshold a j := by
  unfold styleThreshold
  split <;> omega

theorem errsFrom_nil (c : String) (a : List Bool) : ¬ errsFrom c a [] := by
  rintro (h | ⟨j, hj, h⟩ | ⟨t, htm, _⟩)
  · have := colorThreshold_pos c
    simp [countColors] at h
    omega
  · have := styleThreshold_pos a j
    simp at h
    omega
  · exact absurd htm (List.not_mem_nil t)

/-- Skipping an empty slot leaves the error condition unchanged. -/
theorem errsFrom_skip (c : String) (a : List Bool) (ts : List String) :
    errsFrom c a ("" :: ts) ↔ errsFrom c a ts := by
  have h1 : (findColor "").isSome = false := rfl
  constructor
  · rintro (h | ⟨j, hj, h⟩ | ⟨t, htm, hne, h3, h4⟩)
    · left
      rw [countColors_cons, h1] at h
      simpa using h
    · refine Or.inr (Or.inl ⟨j, hj, ?_⟩)
      rw [count_cons_str, if_neg (fun he => styleNameAt_ne_empty j hj he.symm)] at h
      omega
    · rcases List.mem_cons.1 htm with rfl | htm2
      · exact absurd rfl hne
      · exact Or.inr (Or.inr ⟨t, htm2, hne, h3, h4⟩)
  · rintro (h | ⟨j, hj, h⟩ | ⟨t, htm, hne, h3, h4⟩)
    · left
      rw [countColors_cons, h1]
      simpa using h
    · refine Or.inr (Or.inl ⟨j, hj, ?_⟩)
      rw [count_cons_str, if_neg (fun he => styleNameAt_ne_empty j hj he.symm)]
      omega
    · exact Or.inr (Or.inr ⟨t, List.mem_cons_of_mem _ htm, hne, h3, h4⟩)

/-- Consuming a color token: an error now (second color) or later under the
new state whose color slot is filled. -/
theorem errsFrom_color {t e : String} (hc : findColor t = some e)
    (c : String) (a : List Bool) (ts : List String) :
    errsFrom c a (t :: ts) ↔ (c ≠ "" ∨ errsFrom e a ts) := by
  obtain ⟨hsn, hne, hee⟩ := findColor_facts hc
  have hcount : countColors (t :: ts) = countColors ts + 1 := by
    rw [countColors_cons, hc]
    rfl
  constructor
  · rintro (h | ⟨j, hj, h⟩ | ⟨t2, htm, hne2, h3, h4⟩)
    · by_cases hcc : c = ""
      · right
        left
        rw [hcount] at h
        unfold colorThreshold at *
        rw [if_pos hcc] at h
        rw [if_neg hee]
        omega
      · exact Or.inl hcc
    · refine Or.inr (Or.inr (Or.inl ⟨j, hj, ?_⟩))
      rw [count_cons_str, if_neg (findColor_ne_styleName hc hj)] at h
      omega
    · rcases List.mem_cons.1 htm with rfl | htm2
      · rw [hc] at h3
        exact Option.noConfusion h3
      · exact Or.inr (Or.inr (Or.inr ⟨t2, htm2, hne2, h3, h4⟩))
  · rintro (hcc | h | ⟨j, hj, h⟩ | ⟨t2, htm, hne2, h3, h4⟩)
    · left
      rw [hcount]
      unfold colorThreshold
      rw [if_neg hcc]
      omega
    · left
      rw [hcount]
      unfold colorThreshold at *
      rw [if_neg hee] at h
      split <;> omega
    · refine Or.inr (Or.inl ⟨j, hj, ?_⟩)
      rw [count_cons_str, if_neg (findColor_ne_styleName hc hj)]
      omega
    · exact Or.inr (Or.inr ⟨t2, List.mem_cons_of_mem _ htm, hne2, h3, h4⟩)

/-- Consuming a style token: an error now (repeat) or later under the new
state whose flag `j` is set. -/
theorem errsFrom_style {t : String} {j : Nat} (hs : styleIdx t = some j)
    (c : String) (a : List Bool) (hlen : a.length = 5) (ts : List String) :
    errsFrom c a (t :: ts) ↔
      (a.getD j false = true ∨ errsFrom c (a.set j true) ts) := by
  obtain ⟨hj5, hname, hcnone, hne⟩ := styleIdx_facts hs
  have hcount : countColors (t :: ts) = countColors ts := by
    rw [countColors_cons, hcnone]
    rfl
  have hcountj : (t :: ts).count (styleNameAt j) = ts.count (styleNameAt j) + 1 := by
    rw [count_cons_str, if_pos hname.symm.symm]
  have hja : j < a.length := by omega
  have hgset : (a.set j true).getD j false = true := by
    rw [List.getD_eq_get?, List.get?_set_eq]
    simp [List.get?_eq_getElem?, List.getElem?_eq_getElem hja]
  have hgset2 : ∀ j2, j2 ≠ j → (a.set j true).getD j2 false = a.getD j2 false := by
    intro j2 hne2
    rw [List.getD_eq_get?, List.getD_eq_get?, List.get?_set_ne _ _ (fun he => hne2 he.symm)]
  constructor
  · rintro (h | ⟨j2, hj2, h⟩ | ⟨t2, htm, hne2, h3, h4⟩)
    · rw [hcount] at h
      exact Or.inr (Or.inl h)
    · by_cases hjj : j2 = j
      · subst hjj
        rw [hcountj] at h
        by_cases hact : a.getD j2 false = true
        · exact Or.inl hact
        · refine Or.inr (Or.inr (Or.inl ⟨j2, hj2, ?_⟩))
          unfold styleThreshold at *
          rw [if_neg hact] at h
          rw [if_pos hgset]
          omega
      · refine Or.inr (Or.inr (Or.inl ⟨j2, hj2, ?_⟩))
        rw [count_cons_str,
          if_neg (fun he => styleNameAt_inj j hj5 j2 hj2 (fun hx => hjj hx.symm)
            (hname ▸ he))] at h
        unfold styleThreshold at *
        rw [hgset2 j2 hjj]
        omega
    · rcases List.mem_cons.1 htm with rfl | htm2
      · rw [hs] at h4
        exact Option.noConfusion h4
      · exact Or.inr (Or.inr (Or.inr ⟨t2, htm2, hne2, h3, h4⟩))
  · rintro (hact | h | ⟨j2, hj2, h⟩ | ⟨t2, htm, hne2, h3, h4⟩)
    · refine Or.inr (Or.inl ⟨j, hj5, ?_⟩)
      rw [hcountj]
      unfold styleThreshold
      rw [if_pos hact]
      omega
    · left
      rw [hcount]
      exact h
    · refine Or.inr (Or.inl ?_)
      by_cases hjj : j2 = j
      · subst hjj
        refine ⟨j2, hj2, ?_⟩
        rw [hcountj]
        unfold styleThreshold at *
        rw [if_pos hgset] at h
        split <;> omega
      · refine ⟨j2, hj2, ?_⟩
        rw [count_cons_str,
          if_neg (fun he => styleNameAt_inj j hj5 j2 hj2 (fun hx => hjj hx.symm)
            (hname ▸ he))]
        unfold styleThreshold at *
        rw [hgset2 j2 hjj] at h
        omega
    · exact Or.inr (Or.inr ⟨t2, List.mem_cons_of_mem _ htm, hne2, h3, h4⟩)

/-- An unknown non-empty token is an error outright. -/
theorem errsFrom_unknown {t : String} (hcn : findColor t = none)
    (hsn : styleIdx t = none) (hne : t ≠ "")
    (c : String) (a : List Bool) (ts : List String) :
    errsFrom c a (t :: ts) := by
  exact Or.inr (Or.inr ⟨t, List.mem_cons_self t ts, hne, hcn, hsn⟩)

/-- The token loop errs exactly under the generalized error condition. -/
theorem formatTokens_error_iff (toks : List String) : ∀ (st : FmtState),
    st.active.length = 5 →
    ((∃ e, formatTokens st toks = .error e) ↔ errsFrom st.color st.active toks) := by
  induction toks with
  | nil =>
    intro st _
    constructor
    · rintro ⟨e, he⟩
      exact absurd he (by simp [formatTokens])
    · intro h
      exact absurd h (errsFrom_nil _ _)
  | cons t ts ih =>
    intro st hlen
    by_cases ht : t = ""
    · have hp : procToken st t = .ok st := by
        simp [procToken, ht]
      rw [formatTokens, hp, ih st hlen, ht]
      exact (errsFrom_skip _ _ _).symm
    · cases hc : findColor t with
      | some esc =>
        by_cases hcol : st.color = ""
        · have hp : procToken st t = .ok { st with color := esc } := by
            simp [procToken, ht, hc, hcol]
          rw [formatTokens, hp, ih _ (by simpa using hlen)]
          rw [errsFrom_color hc]
          simp [hcol]
        · have hp : procToken st t = .error multipleColorsMsg := by
            simp [procToken, ht, hc, hcol]
          rw [formatTokens, hp]
          constructor
          · intro _
            rw [errsFrom_color hc]
            exact Or.inl hcol
          · intro _
            exact ⟨multipleColorsMsg, rfl⟩
      | none =>
        cases hsi : styleIdx t with
        | some j =>
          by_cases hact : st.active.getD j false = true
          · have hp : procToken st t = .error (duplicateStyleMsg t) := by
              simp only [procToken, if_neg ht, hc, hsi]
              rw [if_pos hact]
            rw [formatTokens, hp]
            constructor
            · intro _
              rw [errsFrom_style hsi st.color st.active hlen]
              exact Or.inl hact
            · intro _
              exact ⟨duplicateStyleMsg t, rfl⟩
          · have hp : procToken st t = .ok { st with
                active := st.active.set j true,
                formats := st.formats ++ ((_styles.get? j).map (·.2)).getD "" } := by
              simp only [procToken, if_neg ht, hc, hsi]
              rw [if_neg hact]
            rw [formatTokens, hp, ih _ (by simp [hlen])]
            rw [errsFrom_style hsi st.color st.active hlen]
            constructor
            · exact fun h => Or.inr h
            · rintro (h2 | h2)
              · exact absurd h2 hact
              · exact h2
        | none =>
          have hp : procToken st t = .error (unknownFormatMsg t) := by
            simp [procToken, ht, hc, hsi]
          rw [formatTokens, hp]
          constructor
          · intro _
            exact errsFrom_unknown hc hsi ht st.color st.active ts
          · intro _
            exact ⟨unknownFormatMsg t, rfl⟩

/-- The generalized condition at the initial state is the claim's
condition. -/
theorem errsFrom_init_iff (toks : List String) :
    errsFrom initState.color initState.active toks ↔ ErrCond toks := by
  unfold errsFrom ErrCond initState colorThreshold styleThreshold
  have hgd : ∀ j, ([false, false, false, false, false] : List Bool).getD j false = false := by
    intro j
    rcases j with _ | _ | _ | _ | _ | j <;> rfl
  constructor
  · rintro (h | ⟨j, hj, h⟩ | h)
    · left
      simpa using h
    · refine Or.inr (Or.inl ⟨j, hj, ?_⟩)
      rw [hgd j] at h
      simpa using h
    · exact Or.inr (Or.inr h)
  · rintro (h | ⟨j, hj, h⟩ | h)
    · left
      simpa using h
    · refine Or.inr (Or.inl ⟨j, hj, ?_⟩)
      rw [hgd j]
      simpa using h
    · exact Or.inr (Or.inr h)

/-- Every error of the token loop is one of the three messages, and the
duplicate-style and unknown-token messages embed the offending token. -/
theorem formatTokens_error_shape (toks : List String) : ∀ (st : FmtState) (m : String),
    formatTokens st toks = .error m →
    m = multipleColorsMsg ∨
    (∃ t ∈ toks, m = duplicateStyleMsg t) ∨
    (∃ t ∈ toks, m = unknownFormatMsg t) := by
  induction toks with
  | nil =>
    intro st m h
    exact absurd h (by simp [formatTokens])
  | cons t ts ih =>
    intro st m h
    rw [formatTokens] at h
    cases hp : procToken st t with
    | ok st2 =>
      rw [hp] at h
      rcases ih st2 m h with h1 | ⟨t2, htm, h2⟩ | ⟨t2, htm, h2⟩
      · exact Or.inl h1
      · exact Or.inr (Or.inl ⟨t2, List.mem_cons_of_mem _ htm, h2⟩)
      · exact Or.inr (Or.inr ⟨t2, List.mem_cons_of_mem _ htm, h2⟩)
    | error e =>
      rw [hp] at h
      injection h with h
      subst h
      unfold procToken at hp
      by_cases ht : t = ""
      · rw [if_pos ht] at hp
        exact Except.noConfusion hp
      · rw [if_neg ht] at hp
        cases hc : findColor t with
        | some esc =>
          simp only [hc] at hp
          by_cases hcol : st.color ≠ ""
          · rw [if_pos hcol] at hp
            injection hp with hp
            exact Or.inl hp.symm
          · rw [if_neg hcol] at hp
            exact Except.noConfusion hp
        | none =>
          simp only [hc] at hp
          cases hsi : styleIdx t with
          | some j =>
            simp only [hsi] at hp
            by_cases hact : st.active.getD j false = true
            · rw [if_pos hact] at hp
              injection hp with hp
              exact Or.inr (Or.inl ⟨t, List.mem_cons_self t ts, hp.symm⟩)
            · rw [if_neg hact] at hp
              exact Except.noConfusion hp
          | none =>
            simp only [hsi] at hp
            injection hp with hp
            exact Or.inr (Or.inr ⟨t, List.mem_cons_self t ts, hp.symm⟩)

instance (a b : String) : Decidable (occursIn a b) :=
  List.decidableInfix a.data b.data

instance (s : String) : Decidable (NoEscStart s) := by
  unfold NoEscStart
  infer_instance

theorem occursIn_duplicateStyleMsg (t : String) : occursIn t (duplicateStyleMsg t) := by
  exact ⟨"❌ Duplicate style detected: ".data, ".".data, by
    simp [duplicateStyleMsg, String.data_append]⟩

theorem occursIn_unknownFormatMsg (t : String) : occursIn t (unknownFormatMsg t) := by
  exact ⟨"❌ Unknown format detected: ".data, [], by
    simp [unknownFormatMsg, String.data_append]⟩

/-- C3 as stated is false in its token-identification part: the second
color token `"blue"` triggers the multiple-colors error, but the message
names neither the offending token nor any token at all. -/
theorem formatString_multiple_colors_counterexample :
    formatString "x" ["red", "blue", "", "", "", ""] = .error multipleColorsMsg ∧
    ¬ occursIn "blue" multipleColorsMsg ∧ ¬ occursIn "red" multipleColorsMsg :=
  ⟨by decide, by decide, by decide⟩

/-- C3 amended: for a non-empty payload, `formatString` throws if and only
if the six tokens contain a second valid color token, a repeated valid
style token, or a non-empty token matching neither table; every error
message identifies its sub-case, and the duplicate-style and unknown-token
messages embed the offending token (the multiple-colors message names no
token, see the counterexample). -/
theorem formatString_error_iff (s t1 t2 t3 t4 t5 t6 : String) (hs : s ≠ "") :
    ((∃ e, formatString s [t1, t2, t3, t4, t5, t6] = .error e) ↔
      ErrCond [t1, t2, t3, t4, t5, t6]) ∧
    (∀ m, formatString s [t1, t2, t3, t4, t5, t6] = .error m →
      m = multipleColorsMsg ∨
      (∃ t ∈ [t1, t2, t3, t4, t5, t6], m = duplicateStyleMsg t ∧ occursIn t m) ∨
      (∃ t ∈ [t1, t2, t3, t4, t5, t6], m = unknownFormatMsg t ∧ occursIn t m)) := by
  have hfs : ∀ e, (formatString s [t1, t2, t3, t4, t5, t6] = .error e ↔
      formatTokens initState [t1, t2, t3, t4, t5, t6] = .error e) := by
    intro e
    unfold formatString
    rw [if_neg hs]
    cases h : formatTokens initState [t1, t2, t3, t4, t5, t6] with
    | ok st => simp
    | error e2 => simp
  constructor
  · rw [← errsFrom_init_iff, ← formatTokens_error_iff _ initState (by rfl)]
    constructor
    · rintro ⟨e, he⟩
      exact ⟨e, (hfs e).1 he⟩
    · rintro ⟨e, he⟩
      exact ⟨e, (hfs e).2 he⟩
  · intro m hm
    rcases formatTokens_error_shape _ initState m ((hfs m).1 hm) with
      h | ⟨t, htm, rfl⟩ | ⟨t, htm, rfl⟩
    · exact Or.inl h
    · exact Or.inr (Or.inl ⟨t, htm, rfl, occursIn_duplicateStyleMsg t⟩)
    · exact Or.inr (Or.inr ⟨t, htm, rfl, occursIn_unknownFormatMsg t⟩)

/-- Witness for `formatString_error_iff` on the payload `"x"` with the
valid tokens `"red"`, `"bold"`. -/
theorem formatString_error_iff_witness :
    ((∃ e, formatString "x" ["red", "bold", "", "", "", ""] = .error e) ↔
      ErrCond ["red", "bold", "", "", "", ""]) ∧
    (∀ m, formatString "x" ["red", "bold", "", "", "", ""] = .error m →
      m = multipleColorsMsg ∨
      (∃ t ∈ ["red", "bold", "", "", "", ""], m = duplicateStyleMsg t ∧ occursIn t m) ∨
      (∃ t ∈ ["red", "bold", "", "", "", ""], m = unknownFormatMsg t ∧ occursIn t m)) :=
  formatString_error_iff "x" "red" "bold" "" "" "" "" (by decide)

/-! ## C2 — round trip through the escape stripper -/

/-- The first `'m'` of `pre ++ 'm' :: t` sits right after an m-free
prefix. -/
theorem findCharFrom_first_m {pre : List Char} (hb : 'm' ∉ pre) (t : List Char) :
    findCharFrom (pre ++ 'm' :: t) 'm' 0 = some pre.length := by
  induction pre with
  | nil => simp [findCharFrom]
  | cons a pre ih =>
    have ha : a ≠ 'm' := fun he => hb (by simp [he])
    have hb2 : 'm' ∉ pre := fun hm => hb (List.mem_cons_of_mem _ hm)
    simp [findCharFrom, ha, ih hb2]

/-- Stripping erases a leading well-formed escape chunk and restarts. -/
theorem stripLoop_chunk {body : List Char} (hb : 'm' ∉ body) (t : List Char) :
    stripLoop (escChar :: '[' :: body ++ 'm' :: t) = stripLoop t := by
  have hpre : 'm' ∉ escChar :: '[' :: body := by
    intro hm
    rcases List.mem_cons.1 hm with h | hm2
    · exact absurd h (by decide)
    rcases List.mem_cons.1 hm2 with h | hm3
    · exact absurd h (by decide)
    exact hb hm3
  have hfep : firstEscPos (escChar :: '[' :: body ++ 'm' :: t) = some 0 := by
    simp [firstEscPos]
  have hfcf : findCharFrom (escChar :: '[' :: body ++ 'm' :: t) 'm' 0 =
      some (body.length + 2) := by
    have := findCharFrom_first_m hpre t
    simpa using this
  rw [stripLoop]
  split
  · next heq =>
    rw [hfep] at heq
    exact Option.noConfusion heq
  · next st heq =>
    rw [hfep] at heq
    injection heq with heq
    subst heq
    split
    · next heq2 =>
      rw [hfcf] at heq2
      exact Option.noConfusion heq2
    · next en heq2 =>
      rw [hfcf] at heq2
      injection heq2 with heq2
      subst heq2
      congr 1
      show List.drop (body.length + 3) (escChar :: '[' :: body ++ 'm' :: t) = t
      rw [show escChar :: '[' :: body ++ 'm' :: t =
        (escChar :: '[' :: body ++ ['m']) ++ t from by simp]
      rw [show body.length + 3 = (escChar :: '[' :: body ++ ['m']).length from by simp]
      exact List.drop_left _ _

/-- A chain of well-formed escape chunks. -/
inductive EscChain : List Char → Prop
  | nil : EscChain []
  | cons (body rest : List Char) : 'm' ∉ body → EscChain rest →
      EscChain (escChar :: '[' :: body ++ 'm' :: rest)

theorem EscChain.append {f g : List Char} (hf : EscChain f) (hg : EscChain g) :
    EscChain (f ++ g) := by
  induction hf with
  | nil => simpa using hg
  | cons body rest hb _ ih =>
    have : (escChar :: '[' :: body ++ 'm' :: rest) ++ g =
        escChar :: '[' :: body ++ 'm' :: (rest ++ g) := by simp
    rw [this]
    exact EscChain.cons body (rest ++ g) hb ih

/-- Stripping eliminates any leading chain of escape chunks. -/
theorem stripLoop_escChain {f : List Char} (hf : EscChain f) (t : List Char) :
    stripLoop (f ++ t) = stripLoop t := by
  induction hf with
  | nil => rfl
  | cons body rest hb _ ih =>
    have : (escChar :: '[' :: body ++ 'm' :: rest) ++ t =
        escChar :: '[' :: body ++ 'm' :: (rest ++ t) := by simp
    rw [this, stripLoop_chunk hb, ih]

/-- Locating the escape starter after a clean prefix. -/
theorem firstEscPos_append_esc {p : List Char} (hp : firstEscPos p = none)
    (rest : List Char) :
    firstEscPos (p ++ escChar :: '[' :: rest) = some p.length := by
  induction p with
  | nil => simp [firstEscPos]
  | cons a p ih =>
    cases p with
    | nil =>
      have : ¬(a = escChar ∧ escChar = '[') := by
        rintro ⟨_, h2⟩
        exact absurd h2 (by decide)
      simp [firstEscPos, this]
    | cons b p2 =>
      rw [firstEscPos] at hp
      by_cases hab : a = escChar ∧ b = '['
      · rw [if_pos hab] at hp
        exact Option.noConfusion hp
      · rw [if_neg hab] at hp
        have hp2 : firstEscPos (b :: p2) = none := by
          cases h2 : firstEscPos (b :: p2) with
          | none => rfl
          | some v =>
            rw [h2] at hp
            exact Option.noConfusion hp
        have hih := ih hp2
        show firstEscPos ((a :: b :: p2) ++ escChar :: '[' :: rest) = _
        rw [show (a :: b :: p2) ++ escChar :: '[' :: rest =
          a :: b :: (p2 ++ escChar :: '[' :: rest) from by simp]
        rw [firstEscPos, if_neg hab]
        rw [show b :: (p2 ++ escChar :: '[' :: rest) =
          (b :: p2) ++ escChar :: '[' :: rest from by simp]
        rw [hih]
        rfl

/-- Searching for a character past a prefix shifts the found index. -/
theorem findCharFrom_append {t : List Char} {c : Char} {i : Nat}
    (h : findCharFrom t c 0 = some i) :
    ∀ p : List Char, findCharFrom (p ++ t) c p.length = some (p.length + i) := by
  intro p
  induction p with
  | nil => simpa using h
  | cons a p ih =>
    show findCharFrom (a :: (p ++ t)) c (p.length + 1) = _
    rw [findCharFrom, ih]
    simp
    omega

/-- Stripping erases a well-formed escape chunk sitting after a clean
prefix. -/
theorem stripLoop_mid_chunk {p body : List Char} (hp : firstEscPos p = none)
    (hb : 'm' ∉ body) (t : List Char) :
    stripLoop (p ++ escChar :: '[' :: (body ++ 'm' :: t)) = stripLoop (p ++ t) := by
  have hpre : 'm' ∉ escChar :: '[' :: body := by
    intro hm
    rcases List.mem_cons.1 hm with h | hm2
    · exact absurd h (by decide)
    rcases List.mem_cons.1 hm2 with h | hm3
    · exact absurd h (by decide)
    exact hb hm3
  have hfep : firstEscPos (p ++ escChar :: '[' :: (body ++ 'm' :: t)) = some p.length :=
    firstEscPos_append_esc hp _
  have hin : findCharFrom (escChar :: '[' :: (body ++ 'm' :: t)) 'm' 0 =
      some (body.length + 2) := by
    have := findCharFrom_first_m hpre t
    simpa using this
  have hfcf : findCharFrom (p ++ escChar :: '[' :: (body ++ 'm' :: t)) 'm' p.length =
      some (p.length + (body.length + 2)) := findCharFrom_append hin p
  rw [stripLoop]
  split
  · next heq =>
    rw [hfep] at heq
    exact Option.noConfusion heq
  · next st heq =>
    rw [hfep] at heq
    injection heq with heq
    subst heq
    split
    · next heq2 =>
      rw [hfcf] at heq2
      exact Option.noConfusion heq2
    · next en heq2 =>
      rw [hfcf] at heq2
      injection heq2 with heq2
      subst heq2
      have h1 : (p ++ escChar :: '[' :: (body ++ 'm' :: t)).take p.length = p :=
        List.take_left p _
      have h2 : (p ++ escChar :: '[' :: (body ++ 'm' :: t)).drop
          (p.length + (body.length + 2) + 1) = t := by
        rw [show p ++ escChar :: '[' :: (body ++ 'm' :: t) =
          (p ++ (escChar :: '[' :: body ++ ['m'])) ++ t from by simp]
        rw [show p.length + (body.length + 2) + 1 =
          (p ++ (escChar :: '[' :: body ++ ['m'])).length from by simp; omega]
        exact List.drop_left _ _
      rw [h1, h2]

theorem escChain_of_lit {s : String} (body : List Char)
    (h : s.data = escChar :: '[' :: body ++ 'm' :: []) (hb : 'm' ∉ body) :
    EscChain s.data := by
  rw [h]
  exact EscChain.cons body [] hb EscChain.nil

/-- Every color-table escape is a well-formed chunk. -/
theorem escChain_findColor {t e : String} (h : findColor t = some e) :
    EscChain e.data := by
  unfold findColor at h
  obtain ⟨j, hj, hmap⟩ := Option.bind_eq_some.1 h
  obtain ⟨p, hget, hpe⟩ := Option.map_eq_some'.1 hmap
  subst hpe
  have hp := List.get?_mem hget
  fin_cases hp
  · exact escChain_of_lit ['3', '1'] rfl (by decide)
  · exact escChain_of_lit ['3', '2'] rfl (by decide)
  · exact escChain_of_lit ['3', '3'] rfl (by decide)
  · exact escChain_of_lit ['3', '4'] rfl (by decide)
  · exact escChain_of_lit ['3', '5'] rfl (by decide)
  · exact escChain_of_lit ['3', '6'] rfl (by decide)
  · exact escChain_of_lit ['3', '7'] rfl (by decide)
  · exact escChain_of_lit ['3', '0'] rfl (by decide)

/-- Every style-table escape appended by the loop is a well-formed chunk. -/
theorem escChain_styleEsc {t : String} {j : Nat} (h : styleIdx t = some j) :
    EscChain ((((_styles.get? j).map (·.2)).getD "").data) := by
  obtain ⟨p, hget, hpt⟩ := lookupIdx_some h
  rw [hget]
  have hp := List.get?_mem hget
  fin_cases hp
  · exact escChain_of_lit ['1'] rfl (by decide)
  · exact escChain_of_lit ['4'] rfl (by decide)
  · exact escChain_of_lit ['3'] rfl (by decide)
  · exact escChain_of_lit ['9'] rfl (by decide)
  · exact escChain_of_lit ['5'] rfl (by decide)

/-- The token loop only ever accumulates well-formed escape chunks in the
color and formats fields. -/
theorem formatTokens_chain (toks : List String) : ∀ st st2 : FmtState,
    EscChain st.color.data → EscChain st.formats.data →
    formatTokens st toks = .ok st2 →
    EscChain st2.color.data ∧ EscChain st2.formats.data := by
  induction toks with
  | nil =>
    intro st st2 h1 h2 h
    rw [formatTokens] at h
    injection h with h
    subst h
    exact ⟨h1, h2⟩
  | cons t ts ih =>
    intro st st2 h1 h2 h
    rw [formatTokens] at h
    cases hp : procToken st t with
    | error e =>
      rw [hp] at h
      exact Except.noConfusion h
    | ok stm =>
      rw [hp] at h
      have hm : EscChain stm.color.data ∧ EscChain stm.formats.data := by
        unfold procToken at hp
        by_cases ht : t = ""
        · rw [if_pos ht] at hp
          injection hp with hp
          subst hp
          exact ⟨h1, h2⟩
        · rw [if_neg ht] at hp
          cases hc : findColor t with
          | some esc =>
            simp only [hc] at hp
            by_cases hcol : st.color ≠ ""
            · rw [if_pos hcol] at hp
              exact Except.noConfusion hp
            · rw [if_neg hcol] at hp
              injection hp with hp
              subst hp
              exact ⟨escChain_findColor hc, h2⟩
          | none =>
            simp only [hc] at hp
            cases hsi : styleIdx t with
            | some j =>
              simp only [hsi] at hp
              by_cases hact : st.active.getD j false = true
              · rw [if_pos hact] at hp
                exact Except.noConfusion hp
              · rw [if_neg hact] at hp
                injection hp with hp
                subst hp
                refine ⟨h1, ?_⟩
                show EscChain (st.formats ++ _).data
                rw [String.data_append]
                exact EscChain.append h2 (escChain_styleEsc hsi)
            | none =>
              simp only [hsi] at hp
              exact Except.noConfusion hp
      exact ih _ _ hm.1 hm.2 h

theorem removePreviousFormats_of_noEscStart {s : String} (h : NoEscStart s) :
    removePreviousFormats s = s := by
  unfold removePreviousFormats
  rw [stripLoop_of_none h]

/-- C2 as stated is false: a payload already carrying escape sequences
does not survive the round trip, because stripping the output also removes
the payload's own escapes. -/
theorem formatString_round_trip_counterexample :
    formatString "\x1b[0mA" ["", "", "", "", "", ""] = .ok ("\x1b[0mA" ++ "\x1b[0m") ∧
    removePreviousFormats ("\x1b[0mA" ++ "\x1b[0m") ≠ "\x1b[0mA" := by
  have h1 : ("\x1b[0mA" ++ "\x1b[0m").data =
      escChar :: '[' :: ['0'] ++ 'm' :: ('A' :: escChar :: '[' :: '0' :: 'm' :: []) := by
    decide
  have h2 : stripLoop (("\x1b[0mA" ++ "\x1b[0m").data) = ['A'] := by
    rw [h1, stripLoop_chunk (by decide)]
    rw [show ('A' :: escChar :: '[' :: '0' :: 'm' :: [] : List Char) =
      ['A'] ++ escChar :: '[' :: (['0'] ++ 'm' :: []) from by decide]
    rw [stripLoop_mid_chunk (by decide) (by decide), List.append_nil,
      stripLoop_of_none (by decide)]
  refine ⟨by decide, ?_⟩
  intro hcon
  have h3 := congrArg String.data hcon
  rw [show (removePreviousFormats ("\x1b[0mA" ++ "\x1b[0m")).data =
    stripLoop (("\x1b[0mA" ++ "\x1b[0m").data) from rfl, h2] at h3
  exact absurd h3 (by decide)

/-- C2 amended: for every payload text containing no `"\x1b["`
escape-sequence starter (in particular any already-stripped plain text) and
every token combination `formatString` accepts, applying
`removePreviousFormats` to the output returns exactly that payload. -/
theorem formatString_round_trip (s t1 t2 t3 t4 t5 t6 : String) (hs : NoEscStart s)
    (r : String) (hok : formatString s [t1, t2, t3, t4, t5, t6] = .ok r) :
    removePreviousFormats r = s := by
  by_cases hse : s = ""
  · subst hse
    rw [show formatString "" [t1, t2, t3, t4, t5, t6] = .ok "" from by
      simp [formatString]] at hok
    injection hok with hok
    subst hok
    unfold removePreviousFormats
    rw [stripLoop_of_none (show firstEscPos "".data = none from rfl)]
  · unfold formatString at hok
    rw [if_neg hse] at hok
    cases hft : formatTokens initState [t1, t2, t3, t4, t5, t6] with
    | error e =>
      rw [hft] at hok
      exact Except.noConfusion hok
    | ok st =>
      rw [hft] at hok
      injection hok with hok
      subst hok
      have hchain := formatTokens_chain [t1, t2, t3, t4, t5, t6] initState st
        EscChain.nil EscChain.nil hft
      have hs2 : (if st.color ≠ "" ∨ st.formats ≠ "" then removePreviousFormats s else s)
          = s := by
        split
        · exact removePreviousFormats_of_noEscStart hs
        · rfl
      rw [hs2]
      unfold removePreviousFormats
      have hd : (st.color ++ st.formats ++ s ++ "\x1b[0m").data =
          (st.color.data ++ st.formats.data) ++ (s.data ++ "\x1b[0m".data) := by
        simp [String.data_append]
      rw [hd, stripLoop_escChain (hchain.1.append hchain.2)]
      rw [show ("\x1b[0m".data : List Char) = escChar :: '[' :: (['0'] ++ 'm' :: [])
        from rfl]
      rw [stripLoop_mid_chunk hs (by decide), List.append_nil, stripLoop_of_none hs]

/-- Witness for `formatString_round_trip`: the clean payload `"A"` with no
tokens round-trips. -/
theorem formatString_round_trip_witness :
    NoEscStart "A" ∧ removePreviousFormats ("A" ++ "\x1b[0m") = "A" :=
  ⟨by decide, formatString_round_trip "A" "" "" "" "" "" "" (by decide)
    ("A" ++ "\x1b[0m") (by decide)⟩

/-! ## C5 — rainbow: shuffled palette and per-character coloring -/

/-- The six shuffle steps unrolled, parameterized by the reduced draws. -/
def shuffleOf (a b c d e : Nat) : List String :=
  let c0 := rainbowPalette
  let o0 := c0.getD a ""
  let c1 := c0.set a (c0.getD 5 "")
  let o1 := c1.getD b ""
  let c2 := c1.set b (c1.getD 4 "")
  let o2 := c2.getD c ""
  let c3 := c2.set c (c2.getD 3 "")
  let o3 := c3.getD d ""
  let c4 := c3.set d (c3.getD 2 "")
  let o4 := c4.getD e ""
  let c5 := c4.set e (c4.getD 1 "")
  let o5 := c5.getD 0 ""
  [o0, o1, o2, o3, o4, o5]

/-- Exhaustive check: every draw combination shuffles the palette into a
permutation of itself. -/
theorem shuffleOf_perm : ∀ a < 6, ∀ b < 5, ∀ c < 4, ∀ d < 3, ∀ e < 2,
    (shuffleOf a b c d e).Perm rainbowPalette := by decide

/-- The shuffle loop is the unrolled shuffle on the reduced draws. -/
theorem shuffledColors_eq (rand : Nat → Nat) :
    shuffledColors rand =
      shuffleOf (rand 0 % 6) (rand 1 % 5) (rand 2 % 4) (rand 3 % 3) (rand 4 % 2) := by
  unfold shuffledColors shuffleOf
  rw [shuffleGo]
  norm_num
  rw [shuffleGo]
  norm_num
  rw [shuffleGo]
  norm_num
  rw [shuffleGo]
  norm_num
  rw [shuffleGo]
  norm_num
  rw [shuffleGo]
  norm_num
  rw [shuffleGo]
  norm_num [Nat.mod_one]

/-- For every draw sequence the six `randomColors` slots are a permutation
of the fixed palette. -/
theorem shuffledColors_perm (rand : Nat → Nat) :
    (shuffledColors rand).Perm rainbowPalette := by
  rw [shuffledColors_eq]
  exact shuffleOf_perm _ (Nat.mod_lt _ (by omega)) _ (Nat.mod_lt _ (by omega))
    _ (Nat.mod_lt _ (by omega)) _ (Nat.mod_lt _ (by omega)) _ (Nat.mod_lt _ (by omega))

/-- On escape-free text the character loop colors position `i` with slot
`i % 6`. -/
theorem rainbowLoop_spec (rc : List String) (s : List Char)
    (hesc : ∀ c ∈ s, c ≠ escChar) :
    ∀ k i, s.length - i = k → rainbowLoop rc s i = specColorize rc (s.drop i) i := by
  intro k
  induction k using Nat.strong_induction_on with
  | _ k ih =>
    intro i hk
    by_cases h : i < s.length
    · have hci : s.getD i ' ' = s[i] := List.getD_eq_getElem s ' ' h
      have hne2 : s.getD i ' ' ≠ escChar := by
        rw [hci]
        exact hesc _ (List.getElem_mem h)
      rw [rainbowLoop, if_pos h, if_neg (fun hx => hne2 hx.1)]
      rw [show s.drop i = s[i] :: s.drop (i + 1) from List.drop_eq_getElem_cons h]
      rw [specColorize]
      rw [ih (s.length - (i + 1)) (by omega) (i + 1) rfl, hci]
    · have hdrop : s.drop i = [] := by
        rw [List.drop_eq_nil_iff_le]
        omega
      rw [rainbowLoop, if_neg h, hdrop, specColorize]

/-- A length-6 list is recovered by reading its six slots in order. -/
theorem map_getD_range6 {l : List String} (hlen : l.length = 6) :
    (List.range 6).map (fun j => l.getD j "") = l := by
  rcases l with _ | ⟨a0, l⟩
  · simp at hlen
  rcases l with _ | ⟨a1, l⟩
  · simp at hlen
  rcases l with _ | ⟨a2, l⟩
  · simp at hlen
  rcases l with _ | ⟨a3, l⟩
  · simp at hlen
  rcases l with _ | ⟨a4, l⟩
  · simp at hlen
  rcases l with _ | ⟨a5, l⟩
  · simp at hlen
  rcases l with _ | ⟨a6, l⟩
  · rfl
  · simp at hlen

/-- Any 6 consecutive slots (read cyclically, starting anywhere) are a
permutation of the palette. -/
theorem shuffled_window_perm (rand : Nat → Nat) (k : Nat) :
    ((List.range 6).map (fun i => (shuffledColors rand).getD ((k + i) % 6) "")).Perm
      rainbowPalette := by
  have hperm := shuffledColors_perm rand
  have hlen : (shuffledColors rand).length = 6 := by
    rw [hperm.length_eq]
    rfl
  have hmod : ∀ i ∈ List.range 6, (fun i => (shuffledColors rand).getD ((k + i) % 6) "") i
      = (fun i => (shuffledColors rand).getD ((k % 6 + i) % 6) "") i := by
    intro i hi
    have : (k + i) % 6 = (k % 6 + i) % 6 := by
      conv_lhs => rw [Nat.add_mod]
      rw [Nat.mod_eq_of_lt (List.mem_range.1 hi)]
    simp only [this]
  rw [List.map_congr_left hmod]
  have hm : k % 6 < 6 := Nat.mod_lt _ (by omega)
  have hidx : ((List.range 6).map (fun i => (k % 6 + i) % 6)).Perm (List.range 6) := by
    set m := k % 6 with hmdef
    interval_cases m <;> decide
  have h2 := hidx.map (fun j => (shuffledColors rand).getD j "")
  rw [List.map_map, map_getD_range6 hlen] at h2
  have h3 : ((fun j => (shuffledColors rand).getD j "") ∘ fun i => (k % 6 + i) % 6)
      = fun i => (shuffledColors rand).getD ((k % 6 + i) % 6) "" := rfl
  rw [h3] at h2
  exact h2.trans hperm

/-- The argument scan on a single non-style text token. -/
theorem rainbowScan_single (text : String) (hne : text ≠ "")
    (hnst : styleIdx text = none) :
    rainbowScan [text] "" "" = .ok (text, "") := by
  rw [rainbowScan, if_neg hne]
  simp only [hnst]
  simp [rainbowScan]

/-- C5: for every draw sequence and every text argument (non-empty, not a
style name) whose stripped form contains no escape characters, `rainbow`
colors the character at position `i` with the shuffled slot `i % 6`, the
six shuffled slots are a permutation of the fixed 6-color palette (each
palette color appears exactly once), and any 6 consecutive positions
receive all 6 palette colors exactly once. -/
theorem rainbow_spec (text : String) (rand : Nat → Nat)
    (hne : text ≠ "") (hnst : styleIdx text = none)
    (hesc : ∀ c ∈ stripLoop text.data, c ≠ escChar) :
    rainbow [text] rand =
      .ok (specColorize (shuffledColors rand) (stripLoop text.data) 0 ++ "\x1b[0m") ∧
    (shuffledColors rand).Perm rainbowPalette ∧
    ∀ k, ((List.range 6).map
      (fun i => (shuffledColors rand).getD ((k + i) % 6) "")).Perm rainbowPalette := by
  refine ⟨?_, shuffledColors_perm rand, fun k => shuffled_window_perm rand k⟩
  unfold rainbow
  rw [rainbowScan_single text hne hnst]
  simp only [if_neg hne]
  rw [rainbowLoop_spec (shuffledColors rand) (stripLoop text.data) hesc
    ((stripLoop text.data).length) 0 rfl]
  rw [List.drop_zero]
  simp

/-- Witness for `rainbow_spec`: the text `"hi"` with the constant draw
sequence 0, window checked at `k = 3`. -/
theorem rainbow_spec_witness :
    rainbow ["hi"] (fun _ => 0) =
      .ok (specColorize (shuffledColors (fun _ => 0))
        (stripLoop "hi".data) 0 ++ "\x1b[0m") ∧
    (shuffledColors (fun _ => 0)).Perm rainbowPalette ∧
    ((List.range 6).map
      (fun i => (shuffledColors (fun _ => 0)).getD ((3 + i) % 6) "")).Perm
      rainbowPalette := by
  have h := rainbow_spec "hi" (fun _ => 0) (by decide) (by decide)
    (by rw [stripLoop_of_none (by decide)]; decide)
  exact ⟨h.1, h.2.1, h.2.2 3⟩

end ColorFormat
